import Mathlib

/-!
Verification development for the parametric terrain generator.

The Python sources are shallowly embedded as Lean definitions:
* the mesh-building geometry (`generators/utils.py`, the per-terrain generator
  files and the wrapper registry `generators/terrain_generators.py`) is embedded
  over `ℝ`, with `trimesh` rigid transforms written out as explicit rotation
  maps; random draws of `np.random.random` become explicit stream parameters
  `u : ℕ → ℝ` (each draw lies in `[0,1)`), and the external Perlin noise
  function `pnoise2` becomes an arbitrary function parameter;
* the heightmap extractor (`terrain_heightmap.py`, the live code path that the
  function actually executes) and the grid-assembler prologue
  (`generate_terrains.py`) are embedded over `ℚ`, with the numpy `-inf`
  "no data" initial value modelled as `⊥ : WithBot ℚ` and Python `int()` /
  `.astype(np.int64)` truncation modelled by `pyInt`.

A surface is a vertex list plus a triangle index list; `trimesh.util.concatenate`
is the index-shifted union, exactly as in the source (no vertex welding).
-/

namespace TerrainGen

/-! ### Generic helpers -/

/-- Python `int()` / numpy `.astype(np.int64)` on a rational: truncation toward zero. -/
def pyInt (q : ℚ) : ℤ := if q < 0 then -(Int.floor (-q)) else Int.floor q

/-- Python `int()` on a real: truncation toward zero. -/
noncomputable def pyIntR (x : ℝ) : ℤ := if x < 0 then -(Int.floor (-x)) else Int.floor x

/-- `np.max` over a vertex-derived list (defined on nonempty lists in the source;
the `[]` case is never reached there). -/
noncomputable def listMax : List ℝ → ℝ
  | [] => 0
  | x :: xs => xs.foldl max x

/-- `np.min` over a vertex-derived list. -/
noncomputable def listMin : List ℝ → ℝ
  | [] => 0
  | x :: xs => xs.foldl min x

/-! ### Heightmap extractor (`terrain_heightmap.py`, live code path)

`generate_heightmap` computes `width = int((max_x - min_x) * resolution)` and
`height = int((max_y - min_y) * resolution)`, builds ray origins from
`np.meshgrid(range(width), range(height))` as `X.ravel()/resolution`,
`Y.ravel()/resolution` (the offsets `(dx, dy)` are added as `(dx, dy)/resolution`),
initialises `Z = np.ones((height, width)) * -np.inf`, and for each offset batch
scatters `Z[fidx[:,0], fidx[:,1]] = np.maximum(Z[...], locations[:,2])` where
`fidx = (locations[:, :2] * resolution).astype(np.int64)`.  With duplicate
indices inside one batch, numpy's scatter keeps the last write, so a cell hit
several times in one batch receives `max (old value) (z of the last such hit)`. -/

/-- Grid width: `int((max_x - min_x) * resolution)`. -/
def hm_width (minx maxx res : ℚ) : ℕ := (pyInt ((maxx - minx) * res)).toNat

/-- Grid height: `int((max_y - min_y) * resolution)`. -/
def hm_height (miny maxy res : ℚ) : ℕ := (pyInt ((maxy - miny) * res)).toNat

/-- The 9 sub-pixel jitter offsets (centre plus 8 neighbours at `±ray_offset`). -/
def ray_offsets (r : ℚ) : List (ℚ × ℚ) :=
  [(0, 0), (r, 0), (-r, 0), (0, r), (0, -r), (r, r), (-r, -r), (-r, r), (r, -r)]

/-- XY position at which the ray for grid point `(xi, yi)` is cast with jitter
offset `off`: the live code uses `X.ravel()/resolution + dx/resolution` — the
sampling rectangle's minimum corner is not added. -/
def ray_origin_xy (res : ℚ) (xi yi : ℕ) (off : ℚ × ℚ) : ℚ × ℚ :=
  ((xi : ℚ) / res + off.1 / res, (yi : ℚ) / res + off.2 / res)

/-- Following the spec's words (§3 Heightmap): "Each cell `(i,j)` maps to world
point `(minX + i/resolution, minY + j/resolution)`".  Kept separate from the
code-derived `ray_origin_xy` so the two can be compared. -/
def spec_cell_point (minx miny res : ℚ) (i j : ℕ) : ℚ × ℚ :=
  (minx + (i : ℚ) / res, miny + (j : ℚ) / res)

/-- Index pair a ray hit is scattered to:
`fidx = (locations[:, :2] * resolution).astype(np.int64)`. -/
def hit_index (res : ℚ) (loc : ℚ × ℚ × ℚ) : ℤ × ℤ :=
  (pyInt (loc.1 * res), pyInt (loc.2.1 * res))

/-- Validity of an index pair `idx` for a 2-d array of the given
`shape = (size of axis 0, size of axis 1)`. -/
def valid_index (shape : ℕ × ℕ) (idx : ℤ × ℤ) : Prop :=
  0 ≤ idx.1 ∧ idx.1 < shape.1 ∧ 0 ≤ idx.2 ∧ idx.2 < shape.2

instance (shape : ℕ × ℕ) (idx : ℤ × ℤ) : Decidable (valid_index shape idx) := by
  unfold valid_index; infer_instance

/-- One offset batch of the scatter
`Z[fidx[:,0], fidx[:,1]] = np.maximum(Z[fidx[:,0], fidx[:,1]], locations[:, 2])`:
a cell receives `max` of its old value and the z of the *last* hit of the batch
mapped to it (numpy keeps the last write on duplicate indices); a cell no hit
maps to is untouched. -/
def scatter_max (res : ℚ) (Z : ℤ × ℤ → WithBot ℚ) (locs : List (ℚ × ℚ × ℚ)) :
    ℤ × ℤ → WithBot ℚ :=
  fun idx =>
    match (locs.filter (fun l => hit_index res l = idx)).getLast? with
    | none => Z idx
    | some l => max (Z idx) (l.2.2 : WithBot ℚ)

/-- The heightmap accumulation over the offset batches, starting from the
`-np.inf` initialisation (modelled as `⊥`): `hits` holds, per jitter offset, the
hit locations returned by `mesh.ray.intersects_location` for that batch. -/
def run_heightmap (res : ℚ) (hits : List (List (ℚ × ℚ × ℚ))) : ℤ × ℤ → WithBot ℚ :=
  hits.foldl (scatter_max res) (fun _ => ⊥)

/-! ### Grid-assembler prologue (`generate_terrains.py`)

The script walks `terrainProportions`, keeps the generators with weight `> 0`
while accumulating `csum`, prints "At least one terrain type must be enabled."
when none is enabled (without stopping), and then normalises with
`tgens_csum = np.array(tgens_csum) / tgens_csum[-1]` — which on an empty list
raises `IndexError`.  Column `i` then selects
`k = np.argwhere(i / numTerrains < tgens_csum)[0, 0]`. -/

/-- The cumulative-weight accumulation loop (`csum`, `tgens_csum`). -/
def csum_aux : List ℚ → ℚ → List ℚ
  | [], _ => []
  | w :: ws, acc => if 0 < w then (acc + w) :: csum_aux ws (acc + w) else csum_aux ws acc

/-- `tgens_csum` before normalisation. -/
def tgens_csum (ws : List ℚ) : List ℚ := csum_aux ws 0

/-- The enabled weights (stand-in for the `tgens` function list, of which only
membership and length matter here). -/
def enabled_gens (ws : List ℚ) : List ℚ := ws.filter (fun w => 0 < w)

/-- The diagnostic the script prints when no generator is enabled (the `if` only
prints; execution continues to the normalisation line). -/
def config_messages (ws : List ℚ) : List String :=
  if enabled_gens ws = [] then ["At least one terrain type must be enabled."] else []

/-- Normalisation `tgens_csum / tgens_csum[-1]`; `none` models the `IndexError`
that `tgens_csum[-1]` raises on an empty list. -/
def normalized_csum (ws : List ℚ) : Option (List ℚ) :=
  match (tgens_csum ws).getLast? with
  | none => none
  | some last => some ((tgens_csum ws).map (fun c => c / last))

/-- The terrain-proportion weights of the shipped configuration (all nine
generators enabled with weight `1.0`). -/
def pipeline_weights : List ℚ := [1, 1, 1, 1, 1, 1, 1, 1, 1]

/-- The all-disabled configuration: every weight is `0`. -/
def zero_weights : List ℚ := [0, 0, 0, 0, 0, 0, 0, 0, 0]

/-! ### Surfaces and rigid transforms

A mesh is a vertex list plus triangle index triples, exactly the
`trimesh.Trimesh(vertices=..., faces=...)` data the generators build.
`trimesh.util.concatenate` appends vertex lists and shifts face indices.
`trimesh.transformations.rotation_matrix(angle, direction, point)` is the
right-handed rotation of `angle` about the axis `direction` through `point`;
only the `[0,0,1]` (yaw) and `[0,1,0]` axes occur in the sources. -/

/-- A 3-d vertex. -/
structure P3 where
  x : ℝ
  y : ℝ
  z : ℝ

/-- A triangle mesh: vertices plus index triples. -/
structure Surf where
  verts : List P3
  faces : List (ℕ × ℕ × ℕ)

/-- `mesh.apply_transform` of a pointwise rigid map keeps the topology. -/
def Surf.mapPts (f : P3 → P3) (s : Surf) : Surf := ⟨s.verts.map f, s.faces⟩

/-- `trimesh.util.concatenate` of two meshes: index-shifted union (no
deduplication of coincident vertices). -/
def Surf.concat2 (a b : Surf) : Surf :=
  ⟨a.verts ++ b.verts,
   a.faces ++ b.faces.map (fun t =>
     (t.1 + a.verts.length, t.2.1 + a.verts.length, t.2.2 + a.verts.length))⟩

/-- `trimesh.util.concatenate` of a list of meshes. -/
def concatAll (l : List Surf) : Surf := l.foldl Surf.concat2 ⟨[], []⟩

/-- Rotation by `th` about the vertical axis `[0,0,1]` through `(px, py, 0)`
(`trimesh.transformations.rotation_matrix(yaw, [0,0,1], [cx, cy, 0])`). -/
noncomputable def rotZP (th px py : ℝ) (p : P3) : P3 :=
  ⟨px + Real.cos th * (p.x - px) - Real.sin th * (p.y - py),
   py + Real.sin th * (p.x - px) + Real.cos th * (p.y - py),
   p.z⟩

/-- Rotation by `th` about the axis `[0,1,0]` through `(px, yy, 0)` (the y
component of the pivot does not matter for a rotation about y). -/
noncomputable def rotYP (th px : ℝ) (p : P3) : P3 :=
  ⟨px + Real.cos th * (p.x - px) + Real.sin th * p.z,
   p.y,
   -(Real.sin th) * (p.x - px) + Real.cos th * p.z⟩

/-- The translation `shift_matrix[2, -1] = height` (pure z shift). -/
noncomputable def shiftZ (h : ℝ) (p : P3) : P3 := ⟨p.x, p.y, p.z + h⟩

/-- The translation `shift_matrix[:2, -1] = cx, cy` (pure xy shift) used to
place a terrain cell in the world. -/
noncomputable def shiftXY (cx cy : ℝ) (p : P3) : P3 := ⟨p.x + cx, p.y + cy, p.z⟩

/-! ### Primitive builders (`generators/utils.py`) -/

/-- The unrotated quad of `create_plane` (its `corners`/`faces` construction). -/
noncomputable def plane_mesh (c : ℝ × ℝ) (length width z_height : ℝ) : Surf :=
  let hl := length / 2
  let hw := width / 2
  ⟨[⟨c.1 - hl, c.2 - hw, z_height⟩,
    ⟨c.1 + hl, c.2 - hw, z_height⟩,
    ⟨c.1 + hl, c.2 + hw, z_height⟩,
    ⟨c.1 - hl, c.2 + hw, z_height⟩],
   [(0, 1, 2), (0, 2, 3)]⟩

/-- `create_plane(center, length, width, z_height, yaw)` (the `if yaw != 0`
rotation of the source). -/
noncomputable def create_plane (c : ℝ × ℝ) (length width z_height yaw : ℝ) : Surf :=
  let m := plane_mesh c length width z_height
  if yaw = 0 then m else m.mapPts (rotZP yaw c.1 c.2)

/-- `create_square_plane(center, width, z_height, yaw)`. -/
noncomputable def create_square_plane (c : ℝ × ℝ) (width z_height yaw : ℝ) : Surf :=
  create_plane c width width z_height yaw

/-- The unrotated quad strip of `create_wall` (4 base then 4 top vertices). -/
noncomputable def wall_mesh (c : ℝ × ℝ) (length width height step_height : ℝ) : Surf :=
  let hl := length / 2
  let hw := width / 2
  let baseZ := height
  let topZ := height + step_height
  ⟨[⟨c.1 - hl, c.2 - hw, baseZ⟩,
    ⟨c.1 + hl, c.2 - hw, baseZ⟩,
    ⟨c.1 + hl, c.2 + hw, baseZ⟩,
    ⟨c.1 - hl, c.2 + hw, baseZ⟩,
    ⟨c.1 - hl, c.2 - hw, topZ⟩,
    ⟨c.1 + hl, c.2 - hw, topZ⟩,
    ⟨c.1 + hl, c.2 + hw, topZ⟩,
    ⟨c.1 - hl, c.2 + hw, topZ⟩],
   [(0, 1, 5), (0, 5, 4), (1, 2, 6), (1, 6, 5),
    (2, 3, 7), (2, 7, 6), (3, 0, 4), (3, 4, 7)]⟩

/-- `create_wall(center, length, width, height, step_height, yaw)`. -/
noncomputable def create_wall (c : ℝ × ℝ) (length width height step_height yaw : ℝ) : Surf :=
  let m := wall_mesh c length width height step_height
  if yaw = 0 then m else m.mapPts (rotZP yaw c.1 c.2)

/-- `create_square_wall(center, width, height, step_height, yaw)`. -/
noncomputable def create_square_wall (c : ℝ × ℝ) (width height step_height yaw : ℝ) : Surf :=
  create_wall c width width height step_height yaw

/-- `create_block(center, length, width, height, block_height, yaw)`:
top plane plus side wall, then the yaw rotation. -/
noncomputable def create_block (c : ℝ × ℝ) (length width height block_height yaw : ℝ) : Surf :=
  let m := Surf.concat2 (create_plane c length width (height + block_height) 0)
                        (create_wall c length width height block_height 0)
  if yaw = 0 then m else m.mapPts (rotZP yaw c.1 c.2)

/-- `create_square_block(center, width, height, block_height, yaw)`. -/
noncomputable def create_square_block (c : ℝ × ℝ) (width height block_height yaw : ℝ) : Surf :=
  create_block c width width height block_height yaw

/-- The tilt of `create_block_tilted_top`: the masks `A` (top vertices,
`z == height + block_height`), `B` (`x == center[0] + length/2`) and `C`
(`y == center[1] + width/2`) are all computed before any update, and the four
in-place updates amount to adding `(if B then n0 else -n0) + (if C then n1 else -n1)`
to the z of every vertex selected by `A`. -/
noncomputable def tilt_shift (c : ℝ × ℝ) (length width height block_height n0 n1 : ℝ)
    (p : P3) : P3 :=
  if p.z = height + block_height then
    ⟨p.x, p.y, p.z + (if p.x = c.1 + length / 2 then n0 else -n0)
                   + (if p.y = c.2 + width / 2 then n1 else -n1)⟩
  else p

/-- The vertex list of `create_block_tilted_top` before the final yaw rotation,
with the two tilt magnitudes `nXY = (2 * np.random.random(2) - 1) * noise`
expanded from the draws `r0, r1 ∈ [0,1)`. -/
noncomputable def tilted_block_local (c : ℝ × ℝ)
    (length width height block_height noise r0 r1 : ℝ) : Surf :=
  let n0 := (2 * r0 - 1) * noise
  let n1 := (2 * r1 - 1) * noise
  let m := Surf.concat2 (plane_mesh c length width (height + block_height))
                        (wall_mesh c length width height block_height)
  m.mapPts (tilt_shift c length width height block_height n0 n1)

/-- `create_block_tilted_top(center, length, width, height, block_height, yaw, noise)`. -/
noncomputable def create_block_tilted_top (c : ℝ × ℝ)
    (length width height block_height yaw noise r0 r1 : ℝ) : Surf :=
  let m := tilted_block_local c length width height block_height noise r0 r1
  if yaw = 0 then m else m.mapPts (rotZP yaw c.1 c.2)

/-- `create_square_plane_with_hole(center, outer_size, inner_size, height)`;
`create_step_top` in `terrain_stairs.py` and `terrain_slope.py` is the same
vertex/face construction. -/
noncomputable def create_square_plane_with_hole (c : ℝ × ℝ)
    (outer_size inner_size height : ℝ) : Surf :=
  let ho := outer_size / 2
  let hi := inner_size / 2
  ⟨[⟨c.1 - ho, c.2 - ho, height⟩,
    ⟨c.1 + ho, c.2 - ho, height⟩,
    ⟨c.1 + ho, c.2 + ho, height⟩,
    ⟨c.1 - ho, c.2 + ho, height⟩,
    ⟨c.1 - hi, c.2 - hi, height⟩,
    ⟨c.1 + hi, c.2 - hi, height⟩,
    ⟨c.1 + hi, c.2 + hi, height⟩,
    ⟨c.1 - hi, c.2 + hi, height⟩],
   [(0, 1, 5), (0, 5, 4), (1, 2, 6), (1, 6, 5),
    (2, 3, 7), (2, 7, 6), (3, 0, 4), (3, 4, 7)]⟩

/-! ### Stairs (`generators/terrain_stairs.py`) -/

/-- `num_steps = int(((terrain_size - platform_size) / 2.0) / step_width)`. -/
noncomputable def pyramid_num_steps (terrain_size platform_size step_width : ℝ) : ℤ :=
  pyIntR (((terrain_size - platform_size) / 2) / step_width)

/-- Step `i`'s top height, `height = sign * (step_height * (i + 1) - total_height)`. -/
noncomputable def pyramid_step_top_height (sgn step_height total_height : ℝ) (i : ℕ) : ℝ :=
  sgn * (step_height * ((i : ℝ) + 1) - total_height)

/-- `generate_pyramid_stairs_terrain(terrain_size, step_width, step_height,
platform_size, going_up)`. -/
noncomputable def generate_pyramid_stairs_terrain
    (terrain_size step_width step_height platform_size : ℝ) (going_up : Bool) : Surf :=
  let c : ℝ × ℝ := (terrain_size / 2, terrain_size / 2)
  let n : ℕ := (pyramid_num_steps terrain_size platform_size step_width).toNat
  let total_height : ℝ := (pyramid_num_steps terrain_size platform_size step_width : ℝ) * step_height
  let sgn : ℝ := if going_up then 1 else -1
  let platform := create_square_plane c platform_size (-sgn * total_height) 0
  let steps := (List.range n).flatMap (fun i =>
    let outer0 := platform_size + 2 * step_width * ((i : ℝ) + 1)
    let outer := if i = n - 1 then terrain_size else outer0
    let inner := platform_size + 2 * step_width * (i : ℝ)
    let h := pyramid_step_top_height sgn step_height total_height i
    [create_square_plane_with_hole c outer inner h,
     create_square_wall c inner h (-sgn * step_height) 0])
  concatAll (platform :: steps)

/-! ### Flat terrain (`generators/terrain_flat.py`) -/

/-- `generate_flat_terrain(terrain_size)`. -/
noncomputable def generate_flat_terrain (terrain_size : ℝ) : Surf :=
  concatAll [create_square_plane (terrain_size / 2, terrain_size / 2) terrain_size 0 0]

/-! ### Random blocks (`generators/terrain_blocks.py`)

The `while k < N` loop draws `xy = np.random.random(2) * (terrain_size -
2*outer_margin) + outer_margin` and resamples (`continue`) whenever
`np.all(np.abs(xy - terrain_size/2) < inner_margin)`; otherwise it draws yaw,
length, width and block height and places the block.  The ambient random stream
is modelled as `u : ℕ → ℝ` consumed sequentially (a rejected iteration consumes
the 2 position draws, an accepted one 6 draws), and the unbounded `while` is
run on explicit fuel: `none` means the fuel ran out before 100 blocks. -/

/-- One placed block of the random-blocks terrain. -/
structure BlockSpec where
  x : ℝ
  y : ℝ
  yaw : ℝ
  len : ℝ
  wid : ℝ
  bh : ℝ

/-- The rejection-resampling loop of `generate_block_terrain` (`N = 100`). -/
noncomputable def block_loop (terrain_size min_bs max_bs max_bh inner_margin outer_margin : ℝ)
    (u : ℕ → ℝ) : ℕ → ℕ → ℕ → List BlockSpec → Option (List BlockSpec)
  | fuel, idx, k, acc =>
    if 100 ≤ k then some acc
    else
      match fuel with
      | 0 => none
      | fuel' + 1 =>
        let x := u idx * (terrain_size - 2 * outer_margin) + outer_margin
        let y := u (idx + 1) * (terrain_size - 2 * outer_margin) + outer_margin
        if |x - terrain_size / 2| < inner_margin ∧ |y - terrain_size / 2| < inner_margin then
          block_loop terrain_size min_bs max_bs max_bh inner_margin outer_margin u
            fuel' (idx + 2) k acc
        else
          block_loop terrain_size min_bs max_bs max_bh inner_margin outer_margin u
            fuel' (idx + 6) (k + 1)
            (acc ++ [⟨x, y, u (idx + 2) * 3.1415,
                      u (idx + 3) * (max_bs - min_bs) + min_bs,
                      u (idx + 4) * (max_bs - min_bs) + min_bs,
                      u (idx + 5) * max_bh⟩])

/-- Acceptance of the position sample drawn at stream index `idx`: the loop
resamples exactly when `np.all(np.abs(xy - terrain_size/2) < inner_margin)`. -/
noncomputable def accepted_at (T im om : ℝ) (u : ℕ → ℝ) (idx : ℕ) : Prop :=
  ¬(|u idx * (T - 2 * om) + om - T / 2| < im ∧
    |u (idx + 1) * (T - 2 * om) + om - T / 2| < im)

/-- The placement bounds of one block of the random-blocks terrain: centre
inside the outer margins, not within the inner margin of the centre in both
coordinates simultaneously, and side lengths between the size bounds. -/
def block_ok (T minbs maxbs im om : ℝ) (b : BlockSpec) : Prop :=
  om ≤ b.x ∧ b.x ≤ T - om ∧ om ≤ b.y ∧ b.y ≤ T - om ∧
  ¬(|b.x - T / 2| < im ∧ |b.y - T / 2| < im) ∧
  minbs ≤ b.len ∧ b.len ≤ maxbs ∧ minbs ≤ b.wid ∧ b.wid ≤ maxbs

/-- `generate_block_terrain(terrain_size, min_block_size, max_block_size,
max_block_height, platform_size, central_platform)`. -/
noncomputable def generate_block_terrain
    (terrain_size min_bs max_bs max_bh platform_size : ℝ) (central_platform : Bool)
    (u : ℕ → ℝ) (fuel : ℕ) : Option Surf :=
  let outer_margin := max_bs * 0.75
  let inner_margin := max_bs * 0.75 + platform_size * 0.5
  (block_loop terrain_size min_bs max_bs max_bh inner_margin outer_margin u fuel 0 0 []).map
    (fun bs =>
      concatAll
        ([create_square_plane (terrain_size / 2, terrain_size / 2) terrain_size 0 0] ++
         bs.map (fun b => create_block (b.x, b.y) b.len b.wid 0 b.bh b.yaw) ++
         (if central_platform then
            [create_square_block (terrain_size / 2, terrain_size / 2) platform_size 0
              (0.5 * max_bh) 0]
          else [])))

/-! ### Slope (`generators/terrain_slope.py`) -/

/-- `np.arctan2(y, x)`; the sources only ever reach the `0 < x` branch. -/
noncomputable def atan2R (y x : ℝ) : ℝ :=
  if 0 < x then Real.arctan (y / x)
  else if x < 0 ∧ 0 ≤ y then Real.arctan (y / x) + Real.pi
  else if x < 0 then Real.arctan (y / x) - Real.pi
  else if 0 < y then Real.pi / 2
  else if y < 0 then -(Real.pi / 2)
  else 0

/-- `create_bar(center, alpha, outer_size, inner_size, bar_height, bar_width)`. -/
noncomputable def create_bar (c : ℝ × ℝ) (alpha outer_size inner_size bar_height bar_width : ℝ) :
    Surf :=
  let ho := outer_size / 2
  let hi := inner_size / 2
  let dxy := alpha * (ho - hi)
  let bw := bar_width / 2
  ⟨[⟨c.1 + hi + dxy - bw, c.2 + hi + dxy - bw, 0⟩,
    ⟨c.1 + hi + dxy - bw, c.2 - hi - dxy + bw, 0⟩,
    ⟨c.1 + hi + dxy - bw, c.2 + hi + dxy - bw, bar_height⟩,
    ⟨c.1 + hi + dxy - bw, c.2 - hi - dxy + bw, bar_height⟩,
    ⟨c.1 + hi + dxy + bw, c.2 + hi + dxy + bw, 0⟩,
    ⟨c.1 + hi + dxy + bw, c.2 - hi - dxy - bw, 0⟩,
    ⟨c.1 + hi + dxy + bw, c.2 + hi + dxy + bw, bar_height⟩,
    ⟨c.1 + hi + dxy + bw, c.2 - hi - dxy - bw, bar_height⟩],
   [(0, 1, 2), (1, 3, 2), (4, 6, 5), (5, 6, 7), (1, 5, 7),
    (1, 7, 3), (4, 0, 2), (4, 2, 6), (3, 7, 6), (3, 6, 2)]⟩

/-- `generate_smooth_slope_side(center, yaw, outer_size, inner_size, height)`
(the yaw rotation is applied unconditionally in this function). -/
noncomputable def generate_smooth_slope_side (c : ℝ × ℝ) (yaw outer_size inner_size height : ℝ) :
    Surf :=
  let ho := outer_size / 2
  let hi := inner_size / 2
  let m : Surf :=
    ⟨[⟨c.1 + ho, c.2 - ho, 0⟩,
      ⟨c.1 + ho, c.2 + ho, 0⟩,
      ⟨c.1 + hi, c.2 + hi, height⟩,
      ⟨c.1 + hi, c.2 - hi, height⟩],
     [(0, 1, 2), (2, 3, 0)]⟩
  m.mapPts (rotZP yaw c.1 c.2)

/-- The rotation angle `rot = np.arctan2(height, half_outer - half_inner)` of the
barred slope side. -/
noncomputable def barred_rot (outer_size inner_size height : ℝ) : ℝ :=
  atan2R height (outer_size / 2 - inner_size / 2)

/-- The flat slope quad of `generate_barred_slope_side` after the rotation about
`[0, 1, 0]` through `(center[0] + half_inner, center[1], 0)` and the z shift by
`height` (this is the state of `slope_mesh` when the corrections are computed). -/
noncomputable def barred_slope_rotated (c : ℝ × ℝ) (outer_size inner_size height : ℝ) : Surf :=
  let ho := outer_size / 2
  let hi := inner_size / 2
  let m : Surf :=
    ⟨[⟨c.1 + ho, c.2 - ho, 0⟩,
      ⟨c.1 + ho, c.2 + ho, 0⟩,
      ⟨c.1 + hi, c.2 + hi, 0⟩,
      ⟨c.1 + hi, c.2 - hi, 0⟩],
     [(0, 1, 2), (2, 3, 0)]⟩
  m.mapPts (fun p => shiftZ height (rotYP (barred_rot outer_size inner_size height) (c.1 + hi) p))

/-- The three transversal bars after the same rotation and shift. -/
noncomputable def barred_bars_rotated (c : ℝ × ℝ) (outer_size inner_size height bar_height bar_width : ℝ) :
    Surf :=
  let hi := inner_size / 2
  let m := concatAll
    [create_bar c 0.25 outer_size inner_size bar_height bar_width,
     create_bar c 0.5 outer_size inner_size bar_height bar_width,
     create_bar c 0.75 outer_size inner_size bar_height bar_width]
  m.mapPts (fun p => shiftZ height (rotYP (barred_rot outer_size inner_size height) (c.1 + hi) p))

/-- `maxx = np.max(slope_mesh.vertices[:, 0] - center[0] - half_inner)`:
the denominator of the X correction of the barred slope side. -/
noncomputable def slope_maxx (c : ℝ × ℝ) (outer_size inner_size height : ℝ) : ℝ :=
  listMax ((barred_slope_rotated c outer_size inner_size height).verts.map
    (fun p => p.x - c.1 - inner_size / 2))

/-- `minmaxz`: the denominator of the Z correction of the barred slope side
(`max` of `z - height` over the slope quad when `height < 0`, else `min`). -/
noncomputable def slope_minmaxz (c : ℝ × ℝ) (outer_size inner_size height : ℝ) : ℝ :=
  if height < 0 then
    listMax ((barred_slope_rotated c outer_size inner_size height).verts.map
      (fun p => p.z - height))
  else
    listMin ((barred_slope_rotated c outer_size inner_size height).verts.map
      (fun p => p.z - height))

/-- The X correction `coeff * (x - center[0] - half_inner) + center[0] + half_inner`. -/
noncomputable def xcorrect (c : ℝ × ℝ) (inner_size coeff : ℝ) (p : P3) : P3 :=
  ⟨coeff * (p.x - c.1 - inner_size / 2) + c.1 + inner_size / 2, p.y, p.z⟩

/-- The Z correction `coeff * (z - height) + height`. -/
noncomputable def zcorrect (height coeff : ℝ) (p : P3) : P3 :=
  ⟨p.x, p.y, coeff * (p.z - height) + height⟩

/-- `generate_barred_slope_side(center, yaw, outer_size, inner_size, height,
bar_height, bar_width)`. -/
noncomputable def generate_barred_slope_side (c : ℝ × ℝ)
    (yaw outer_size inner_size height bar_height bar_width : ℝ) : Surf :=
  let merged := Surf.concat2 (barred_slope_rotated c outer_size inner_size height)
                             (barred_bars_rotated c outer_size inner_size height bar_height bar_width)
  let coeffX := (outer_size / 2 - inner_size / 2) / slope_maxx c outer_size inner_size height
  let m2 := merged.mapPts (xcorrect c inner_size coeffX)
  let coeffZ := -height / slope_minmaxz c outer_size inner_size height
  let m3 := m2.mapPts (zcorrect height coeffZ)
  m3.mapPts (rotZP yaw c.1 c.2)

/-- `generate_slope_terrain(terrain_size, total_height, bar_height, bar_width,
platform_size, going_up)`; at `total_height == 0.0` it returns the flat square
plane immediately and never reaches the barred sides. -/
noncomputable def generate_slope_terrain
    (terrain_size total_height bar_height bar_width platform_size : ℝ) (going_up : Bool) : Surf :=
  let c : ℝ × ℝ := (terrain_size / 2, terrain_size / 2)
  let sgn : ℝ := if going_up then 1 else -1
  if total_height = 0 then create_square_plane c terrain_size 0 0
  else
    concatAll
      [create_square_plane c platform_size (-sgn * total_height) 0,
       generate_smooth_slope_side c 0 (terrain_size - 2) platform_size (-sgn * total_height),
       generate_barred_slope_side c (Real.pi / 2) (terrain_size - 2) platform_size
         (-sgn * total_height) bar_height bar_width,
       generate_smooth_slope_side c Real.pi (terrain_size - 2) platform_size
         (-sgn * total_height),
       generate_barred_slope_side c (3 * Real.pi / 2) (terrain_size - 2) platform_size
         (-sgn * total_height) bar_height bar_width,
       create_square_plane_with_hole c terrain_size (terrain_size - 2) 0]

/-! ### Perlin terrain (`generators/terrain_perlin.py`)

The external `pnoise2(·, ·, octaves=4)` is an opaque collaborator, modelled as
an arbitrary function parameter `noiseF`; `xs, ys = 1000 * np.random.random(2)`
is the per-call random shift. -/

/-- The body of the heightmap double loop for lattice point `(x, y)` with
`x, y < terrain_resolution` (`platform_height = 0.0`). -/
noncomputable def perlin_cell_height (tr : ℕ) (noiseF : ℝ → ℝ → ℝ)
    (xs ys scale hmult : ℝ) (plat_center plat_res : ℕ) (plat_smooth edge_smooth : ℝ)
    (x y : ℕ) : ℝ :=
  let nx := ((x : ℝ) + xs) / (tr : ℝ)
  let ny := ((y : ℝ) + ys) / (tr : ℝ)
  let base_height := noiseF (nx / scale) (ny / scale) * hmult
  let edge_dist : ℝ := min (min (x : ℝ) (y : ℝ)) (min ((tr : ℝ) - (x : ℝ) - 1) ((tr : ℝ) - (y : ℝ) - 1))
  let edge_factor := min 1 (edge_dist / edge_smooth)
  let dist_to_center : ℝ := max |(x : ℝ) - (plat_center : ℝ)| |(y : ℝ) - (plat_center : ℝ)|
  let height :=
    if dist_to_center < (plat_res : ℝ) / 2 + plat_smooth then
      let platform_edge_dist := max 0 (dist_to_center - (plat_res : ℝ) / 2)
      let smooth_factor := max 0 (1 - platform_edge_dist / plat_smooth)
      0 * smooth_factor + base_height * (1 - smooth_factor)
    else base_height
  height * edge_factor

/-- The `(terrain_resolution + 1)²` heightmap array: zero-initialised, the double
loop fills only indices `< terrain_resolution`, so the last row and column stay 0. -/
noncomputable def perlin_hm (tr : ℕ) (noiseF : ℝ → ℝ → ℝ)
    (xs ys scale hmult : ℝ) (plat_center plat_res : ℕ) (plat_smooth edge_smooth : ℝ)
    (x y : ℕ) : ℝ :=
  if x < tr ∧ y < tr then
    perlin_cell_height tr noiseF xs ys scale hmult plat_center plat_res plat_smooth edge_smooth x y
  else 0

/-- `generate_perlin_terrain(terrain_size, resolution_per_meter, scale,
height_multiplier, platform_size, platform_smoothing_distance,
edge_smoothing_distance)`: two triangles per lattice quad, four fresh vertices
per quad (`idx_base = len(vertices)`). -/
noncomputable def generate_perlin_terrain
    (terrain_size : ℝ) (rpm : ℝ) (scale hmult platform_size psd esd : ℝ)
    (noiseF : ℝ → ℝ → ℝ) (xs ys : ℝ) : Surf :=
  let tr : ℕ := (pyIntR (terrain_size * rpm)).toNat
  let plat_res : ℕ := (pyIntR (platform_size * rpm)).toNat
  let plat_center : ℕ := tr / 2
  let plat_smooth : ℝ := psd * rpm
  let edge_smooth : ℝ := esd * rpm
  let hm := perlin_hm tr noiseF xs ys scale hmult plat_center plat_res plat_smooth edge_smooth
  ⟨(List.range tr).flatMap (fun x => (List.range tr).flatMap (fun y =>
      [⟨(x : ℝ) / rpm, (y : ℝ) / rpm, hm x y⟩,
       ⟨((x : ℝ) + 1) / rpm, (y : ℝ) / rpm, hm (x + 1) y⟩,
       ⟨(x : ℝ) / rpm, ((y : ℝ) + 1) / rpm, hm x (y + 1)⟩,
       ⟨((x : ℝ) + 1) / rpm, ((y : ℝ) + 1) / rpm, hm (x + 1) (y + 1)⟩])),
   (List.range tr).flatMap (fun x => (List.range tr).flatMap (fun y =>
      let ib := 4 * (x * tr + y)
      [(ib, ib + 1, ib + 2), (ib + 2, ib + 1, ib + 3)]))⟩

/-! ### Tilted squares (`generators/terrain_tilted_squares.py`)

Each non-central cell calls `create_block_tilted_top`, which draws
`np.random.random(2)`; the ambient stream is modelled as a family
`r : ℕ → ℝ × ℝ` of draw pairs indexed by the cell counter `i * N + j`. -/

/-- `generate_tilted_squares_terrain(terrain_size, block_size, block_height,
platform_size, noise)`. -/
noncomputable def generate_tilted_squares_terrain
    (terrain_size block_size block_height platform_size noise : ℝ) (r : ℕ → ℝ × ℝ) : Surf :=
  let N : ℕ := (pyIntR (terrain_size / block_size)).toNat
  let c : ℝ × ℝ := (terrain_size / 2, terrain_size / 2)
  let border := create_square_plane_with_hole c terrain_size (terrain_size - 2 * block_size) 0
  let cells := (List.range' 1 (N - 2)).flatMap (fun i =>
    (List.range' 1 (N - 2)).flatMap (fun j =>
      let x := ((i : ℝ) + 0.5) * block_size
      let y := ((j : ℝ) + 0.5) * block_size
      if |x - c.1| < platform_size / 2 ∧ |y - c.2| < platform_size / 2 then
        [create_square_plane (x, y) block_size 0 0]
      else
        [create_block_tilted_top (x, y) block_size block_size 0 block_height 0 noise
          (r (i * N + j)).1 (r (i * N + j)).2]))
  concatAll (cells ++ [border])

/-! ### Checkers -/

/-- Modelled from the spec: `generate_checkers_terrain` — the file
`generators/terrain_checkers.py` is imported by the generator registry but is
missing from the sources.  Spec §4.2: "checkers: tiled grid of square blocks of
side `blockSize` (flat border strip of width `blockSize` left untouched), each
block height `blockHeight` perturbed by uniform noise `±noise`, except blocks
overlapping the central `platformSize` region which are left flat."  The layout
mirrors its sibling `generate_tilted_squares_terrain` ("tiltedSquares: like
checkers but every non-central tile is a `tiltedBlock`"), with a flat-topped
`create_square_block` of height `blockHeight + (2·draw − 1)·noise` per tile. -/
noncomputable def generate_checkers_terrain
    (terrain_size block_size block_height platform_size noise : ℝ) (r : ℕ → ℝ) : Surf :=
  let N : ℕ := (pyIntR (terrain_size / block_size)).toNat
  let c : ℝ × ℝ := (terrain_size / 2, terrain_size / 2)
  let border := create_square_plane_with_hole c terrain_size (terrain_size - 2 * block_size) 0
  let cells := (List.range' 1 (N - 2)).flatMap (fun i =>
    (List.range' 1 (N - 2)).flatMap (fun j =>
      let x := ((i : ℝ) + 0.5) * block_size
      let y := ((j : ℝ) + 0.5) * block_size
      if |x - c.1| < platform_size / 2 ∧ |y - c.2| < platform_size / 2 then
        [create_square_plane (x, y) block_size 0 0]
      else
        [create_square_block (x, y) block_size 0
          (block_height + (2 * r (i * N + j) - 1) * noise) 0]))
  concatAll (cells ++ [border])

/-! ### Square centric (`generators/terrain_square_centric.py`) -/

/-- `create_square_obstacle(center, outer_size, inner_size, height, step_height)`. -/
noncomputable def create_square_obstacle (c : ℝ × ℝ) (outer_size inner_size height step_height : ℝ) :
    Surf :=
  concatAll
    [create_square_wall c inner_size (height + step_height) (-step_height) 0,
     create_square_plane_with_hole c outer_size inner_size (height + step_height),
     create_square_wall c outer_size height step_height 0]

/-- `generate_square_centric_terrain(terrain_size, step_width, step_height,
step_spacing, platform_size)`. -/
noncomputable def generate_square_centric_terrain
    (terrain_size step_width step_height step_spacing platform_size : ℝ) : Surf :=
  let c : ℝ × ℝ := (terrain_size / 2, terrain_size / 2)
  let n : ℕ := (pyIntR (((terrain_size - platform_size) / 2) / step_spacing)).toNat
  concatAll
    (create_square_plane c terrain_size 0 0 ::
     (List.range n).map (fun (i : ℕ) =>
       let inner := platform_size + 2 * step_spacing * (i : ℝ)
       create_square_obstacle c (inner + step_width) inner 0 step_height))

/-! ### Border and wrapper registry (`generators/terrain_generators.py`) -/

/-- `create_border(sizeX, sizeY, borderSize)`. -/
noncomputable def create_border (sizeX sizeY borderSize : ℝ) : Surf :=
  let hX := sizeX * 0.5
  let hY := sizeY * 0.5
  let c : ℝ × ℝ := (hX, hY)
  ⟨[⟨c.1 - hX - borderSize, c.2 - hY - borderSize, 0⟩,
    ⟨c.1 + hX + borderSize, c.2 - hY - borderSize, 0⟩,
    ⟨c.1 + hX + borderSize, c.2 + hY + borderSize, 0⟩,
    ⟨c.1 - hX - borderSize, c.2 + hY + borderSize, 0⟩,
    ⟨c.1 - hX, c.2 - hY, 0⟩,
    ⟨c.1 + hX, c.2 - hY, 0⟩,
    ⟨c.1 + hX, c.2 + hY, 0⟩,
    ⟨c.1 - hX, c.2 + hY, 0⟩],
   [(0, 1, 5), (0, 5, 4), (1, 2, 6), (1, 6, 5),
    (2, 3, 7), (2, 7, 6), (3, 0, 4), (3, 4, 7)]⟩

/-- Wrapper `flat(difficulty)`: the difficulty is ignored. -/
noncomputable def flat (_difficulty : ℝ) : Surf := generate_flat_terrain 8

/-- Wrapper `stairs_upwards(difficulty)`: `step_height = 0.08 * difficulty`. -/
noncomputable def stairs_upwards (difficulty : ℝ) : Surf :=
  generate_pyramid_stairs_terrain 8 0.6 (0.08 * difficulty) 1 true

/-- Wrapper `stairs_downwards(difficulty)`. -/
noncomputable def stairs_downwards (difficulty : ℝ) : Surf :=
  generate_pyramid_stairs_terrain 8 0.6 (0.08 * difficulty) 1 false

/-- Wrapper `slope_upwards(difficulty)`: `total_height = 0.5 * difficulty`,
`bar_height = 0.08 * difficulty`, `bar_width = 0.2`, `platform_size = 1.0`. -/
noncomputable def slope_upwards (difficulty : ℝ) : Surf :=
  generate_slope_terrain 8 (0.5 * difficulty) (0.08 * difficulty) 0.2 1 true

/-- Wrapper `random_blocks(difficulty)`: `max_block_height = 0.1 * difficulty`. -/
noncomputable def random_blocks (difficulty : ℝ) (u : ℕ → ℝ) (fuel : ℕ) : Option Surf :=
  generate_block_terrain 8 0.5 1 (0.1 * difficulty) 0.75 true u fuel

/-- Wrapper `perlin(difficulty)`: `height_multiplier = 0.3 * difficulty`. -/
noncomputable def perlin (difficulty : ℝ) (noiseF : ℝ → ℝ → ℝ) (xs ys : ℝ) : Surf :=
  generate_perlin_terrain 8 20 0.2 (0.3 * difficulty) 0.75 0.4 0.4 noiseF xs ys

/-- Wrapper `checkers(difficulty)`: `block_height = 0.09 * difficulty`,
`noise = 0.02`. -/
noncomputable def checkers (difficulty : ℝ) (r : ℕ → ℝ) : Surf :=
  generate_checkers_terrain 8 0.5 (0.09 * difficulty) 0.75 0.02 r

/-- Wrapper `tilted_squares(difficulty)`: `block_height = 0.08 * difficulty`,
`noise = 0.04 * difficulty`. -/
noncomputable def tilted_squares (difficulty : ℝ) (r : ℕ → ℝ × ℝ) : Surf :=
  generate_tilted_squares_terrain 8 0.5 (0.08 * difficulty) 1 (0.04 * difficulty) r

/-- Wrapper `square_centric(difficulty)`: `step_height = 0.08 * difficulty`. -/
noncomputable def square_centric (difficulty : ℝ) : Surf :=
  generate_square_centric_terrain 8 0.6 (0.08 * difficulty) 0.7 1

/-! ### Bounding boxes and surface membership -/

/-- Membership of a vertex in the closed rectangle `[x0, x1] × [y0, y1]`. -/
def in_rect (x0 x1 y0 y1 : ℝ) (p : P3) : Prop :=
  x0 ≤ p.x ∧ p.x ≤ x1 ∧ y0 ≤ p.y ∧ p.y ≤ y1

/-- The XY bounding box of a surface equals `[x0, x1] × [y0, y1]`: every vertex
lies inside, and each of the four bounds is attained. -/
def bbox_xy_eq (s : Surf) (x0 x1 y0 y1 : ℝ) : Prop :=
  (∀ p ∈ s.verts, in_rect x0 x1 y0 y1 p) ∧
  (∃ p ∈ s.verts, p.x = x0) ∧ (∃ p ∈ s.verts, p.x = x1) ∧
  (∃ p ∈ s.verts, p.y = y0) ∧ (∃ p ∈ s.verts, p.y = y1)

/-- A point of a (filled) triangle: a convex combination of its corners. -/
def in_triangle (a b c p : P3) : Prop :=
  ∃ al be ga : ℝ, 0 ≤ al ∧ 0 ≤ be ∧ 0 ≤ ga ∧ al + be + ga = 1 ∧
    p.x = al * a.x + be * b.x + ga * c.x ∧
    p.y = al * a.y + be * b.y + ga * c.y ∧
    p.z = al * a.z + be * b.z + ga * c.z

/-- A point lying on a surface: on some face triangle of the mesh. -/
def on_surface (s : Surf) (p : P3) : Prop :=
  ∃ f ∈ s.faces, ∃ a b c : P3,
    s.verts.get? f.1 = some a ∧ s.verts.get? f.2.1 = some b ∧
    s.verts.get? f.2.2 = some c ∧ in_triangle a b c p

/-! ## Lemmas and claim theorems -/

/-! ### Heightmap sentinel (claim C2) -/

lemma scatter_max_untouched (res : ℚ) (Z : ℤ × ℤ → WithBot ℚ)
    (locs : List (ℚ × ℚ × ℚ)) (idx : ℤ × ℤ)
    (h : ∀ l ∈ locs, hit_index res l ≠ idx) :
    scatter_max res Z locs idx = Z idx := by
  unfold scatter_max
  have : locs.filter (fun l => hit_index res l = idx) = [] := by
    apply List.filter_eq_nil_iff.mpr
    intro l hl
    simpa using h l hl
  rw [this]
  rfl

lemma run_heightmap_untouched_aux (res : ℚ) (hits : List (List (ℚ × ℚ × ℚ)))
    (Z : ℤ × ℤ → WithBot ℚ) (idx : ℤ × ℤ)
    (h : ∀ batch ∈ hits, ∀ l ∈ batch, hit_index res l ≠ idx) :
    hits.foldl (scatter_max res) Z idx = Z idx := by
  induction hits generalizing Z with
  | nil => rfl
  | cons b bs ih =>
    simp only [List.foldl_cons]
    rw [ih (scatter_max res Z b) (fun batch hb => h batch (List.mem_cons_of_mem b hb)),
      scatter_max_untouched res Z b idx (h b (List.mem_cons_self b bs))]

/-- Claim C2: a heightmap cell that receives no ray hit across all jitter-offset
batches keeps the `-np.inf` initial value (modelled `⊥`), which is an explicit
"no data" sentinel: it differs from every finite elevation, is strictly below
all of them, and in particular is not the value zero. -/
theorem heightmap_no_hit_cell_keeps_sentinel (res : ℚ)
    (hits : List (List (ℚ × ℚ × ℚ))) (idx : ℤ × ℤ)
    (h : ∀ batch ∈ hits, ∀ l ∈ batch, hit_index res l ≠ idx) :
    run_heightmap res hits idx = ⊥ ∧
    (∀ q : ℚ, (q : WithBot ℚ) ≠ ⊥) ∧
    ((⊥ : WithBot ℚ) ≠ ((0 : ℚ) : WithBot ℚ)) ∧
    (∀ q : ℚ, (⊥ : WithBot ℚ) < (q : WithBot ℚ)) := by
  refine ⟨?_, fun q => WithBot.coe_ne_bot, ?_, fun q => WithBot.bot_lt_coe q⟩
  · exact run_heightmap_untouched_aux res hits _ idx h
  · exact fun hbot => WithBot.coe_ne_bot hbot.symm

/-- Witness for C2: a concrete one-batch run whose single hit lands in cell
`(1, 1)`, so cell `(0, 0)` keeps the sentinel. -/
theorem heightmap_no_hit_cell_keeps_sentinel_witness :
    (∀ batch ∈ ([[((1 : ℚ), (1 : ℚ), (5 : ℚ))]] : List (List (ℚ × ℚ × ℚ))),
      ∀ l ∈ batch, hit_index 1 l ≠ ((0 : ℤ), (0 : ℤ))) ∧
    (run_heightmap 1 [[(1, 1, 5)]] (0, 0) = ⊥ ∧
     (∀ q : ℚ, (q : WithBot ℚ) ≠ ⊥) ∧
     ((⊥ : WithBot ℚ) ≠ ((0 : ℚ) : WithBot ℚ)) ∧
     (∀ q : ℚ, (⊥ : WithBot ℚ) < (q : WithBot ℚ))) := by
  have hside : ∀ batch ∈ ([[((1 : ℚ), (1 : ℚ), (5 : ℚ))]] : List (List (ℚ × ℚ × ℚ))),
      ∀ l ∈ batch, hit_index 1 l ≠ ((0 : ℤ), (0 : ℤ)) := by
    intro batch hb l hl
    simp only [List.mem_singleton] at hb
    subst hb
    simp only [List.mem_singleton] at hl
    subst hl
    simp only [hit_index, pyInt, ne_eq, Prod.mk.injEq]
    norm_num
  exact ⟨hside, heightmap_no_hit_cell_keeps_sentinel 1 [[(1, 1, 5)]] (0, 0) hside⟩

/-! ### Heightmap grid anchoring (claim C3)

The live code path casts the rays for cell `(i, j)` at `(i/res, j/res)`; the
sampling rectangle's minimum corner `(min_x, min_y)` is never added (it is used
only for the width/height computation), so for the pipeline's rectangle, whose
minimum corner is `(-2.5, -2.5)`, the cast position differs from the spec's
`(minX + i/resolution, minY + j/resolution)`. -/

/-- Claim C3 (refuted): at the pipeline's sampling rectangle the ray for cell
`(0, 0)` is cast at `(0, 0)`, not at the rectangle's minimum corner
`(-2.5, -2.5)` required by the claim. -/
theorem heightmap_rays_not_anchored_at_min_corner :
    ray_origin_xy 1 0 0 (0, 0) = (0, 0) ∧
    spec_cell_point (-5/2) (-5/2) 1 0 0 = (-5/2, -5/2) ∧
    ray_origin_xy 1 0 0 (0, 0) ≠ spec_cell_point (-5/2) (-5/2) 1 0 0 := by
  refine ⟨by norm_num [ray_origin_xy], by norm_num [spec_cell_point], ?_⟩
  simp only [ray_origin_xy, spec_cell_point]
  intro hcontra
  have := congrArg Prod.fst hcontra
  norm_num at this

/-! ### Stairs exactness (claim C4) -/

lemma stairs_num_steps_pipeline : pyramid_num_steps 8 1 0.6 = 5 := by
  unfold pyramid_num_steps pyIntR
  rw [if_neg (by norm_num)]
  rw [show ((8 : ℝ) - 1) / 2 / 0.6 = 35 / 6 by norm_num]
  norm_num

/-- Claim C4: with `terrain_size = 8`, `step_width = 0.6`, `step_height = 0.08`,
`platform_size = 1.0`, going up, the stairs generator uses
`num_steps = int(((8-1)/2)/0.6) = 5`, and step `i`'s top height equals
`0.08·(i+1) − 5·0.08`, i.e. the five heights are exactly
`{−0.32, −0.24, −0.16, −0.08, 0}`. -/
theorem stairs_exactness :
    pyramid_num_steps 8 1 0.6 = 5 ∧
    (∀ i : ℕ, i < 5 →
      pyramid_step_top_height 1 0.08 ((5 : ℝ) * 0.08) i = 0.08 * ((i : ℝ) + 1) - 5 * 0.08) ∧
    ((List.range 5).map (pyramid_step_top_height 1 0.08 ((5 : ℝ) * 0.08)) =
      [-0.32, -0.24, -0.16, -0.08, 0]) := by
  refine ⟨stairs_num_steps_pipeline, ?_, ?_⟩
  · intro i _
    unfold pyramid_step_top_height
    ring
  · have h5 : List.range 5 = [0, 1, 2, 3, 4] := by decide
    rw [h5]
    simp only [List.map_cons, List.map_nil, pyramid_step_top_height]
    norm_num

/-- Witness for C4: the inner bound `i < 5` discharged at `i = 2`. -/
theorem stairs_exactness_witness :
    (2 : ℕ) < 5 ∧
    pyramid_step_top_height 1 0.08 ((5 : ℝ) * 0.08) 2 = 0.08 * ((2 : ℕ) + 1 : ℝ) - 5 * 0.08 :=
  ⟨by norm_num, stairs_exactness.2.1 2 (by norm_num)⟩

/-! ### Column selection coverage (claim C5) -/

lemma csum_aux_eq_nil (ws : List ℚ) (acc : ℚ) (h : ∀ w ∈ ws, ¬ 0 < w) :
    csum_aux ws acc = [] := by
  induction ws generalizing acc with
  | nil => rfl
  | cons w ws ih =>
    unfold csum_aux
    rw [if_neg (h w (List.mem_cons_self w ws))]
    exact ih acc (fun v hv => h v (List.mem_cons_of_mem w hv))

lemma getLast?_cons_of_ne_nil {α : Type} (a : α) (l : List α) (h : l ≠ []) :
    (a :: l).getLast? = l.getLast? := by
  cases l with
  | nil => exact absurd rfl h
  | cons b t => exact List.getLast?_cons_cons

lemma csum_aux_last (ws : List ℚ) (acc : ℚ) (h : ∃ w ∈ ws, 0 < w) :
    (csum_aux ws acc).getLast? = some (acc + (ws.filter (fun w => 0 < w)).sum) := by
  induction ws generalizing acc with
  | nil => simp at h
  | cons w ws ih =>
    by_cases hw : 0 < w
    · unfold csum_aux
      rw [if_pos hw]
      by_cases hrest : ∃ v ∈ ws, 0 < v
      · have hne : csum_aux ws (acc + w) ≠ [] := by
          intro hnil
          have h2 := ih (acc + w) hrest
          rw [hnil] at h2
          simp at h2
        rw [getLast?_cons_of_ne_nil _ _ hne, ih (acc + w) hrest]
        have hf : (w :: ws).filter (fun v => 0 < v) = w :: ws.filter (fun v => 0 < v) := by
          simp [List.filter_cons, hw]
        rw [hf, List.sum_cons, Option.some.injEq]
        ring
      · have hnil : csum_aux ws (acc + w) = [] :=
          csum_aux_eq_nil ws (acc + w) (fun v hv hvpos => hrest ⟨v, hv, hvpos⟩)
        rw [hnil]
        have hfil : ws.filter (fun v => 0 < v) = [] :=
          List.filter_eq_nil_iff.mpr (fun v hv => by
            simp only [decide_eq_true_eq]
            exact fun hvpos => hrest ⟨v, hv, hvpos⟩)
        have hf : (w :: ws).filter (fun v => 0 < v) = [w] := by
          simp [List.filter_cons, hw, hfil]
        rw [hf, List.getLast?_singleton, List.sum_cons, List.sum_nil, Option.some.injEq]
        ring
    · unfold csum_aux
      rw [if_neg hw]
      have hrest : ∃ v ∈ ws, 0 < v := by
        obtain ⟨v, hv, hvpos⟩ := h
        rcases List.mem_cons.mp hv with rfl | hv2
        · exact absurd hvpos hw
        · exact ⟨v, hv2, hvpos⟩
      rw [ih acc hrest]
      have hf : (w :: ws).filter (fun v => 0 < v) = ws.filter (fun v => 0 < v) := by
        simp [List.filter_cons, hw]
      rw [hf]

lemma filter_pos_sum_pos (ws : List ℚ) (h : ∃ w ∈ ws, 0 < w) :
    0 < (ws.filter (fun w => 0 < w)).sum := by
  apply List.sum_pos
  · intro v hv
    have := List.of_mem_filter hv
    simpa using this
  · obtain ⟨w, hw, hwpos⟩ := h
    intro hnil
    have : w ∈ ws.filter (fun w => 0 < w) := by
      apply List.mem_filter.mpr
      exact ⟨hw, by simpa using hwpos⟩
    rw [hnil] at this
    simp at this

/-- Claim C5: for every weight mapping with at least one positive weight and
every column index `c < numTerrains`, the normalised cumulative-weight vector
exists (the configuration passes the normalisation step) and contains an entry
above `c / numTerrains` — `np.argwhere(i / numTerrains < tgens_csum)[0, 0]`
always finds a match, because the last normalised entry is forced to `1`. -/
theorem column_selection_always_matches (ws : List ℚ) (hw : ∃ w ∈ ws, 0 < w)
    (n c : ℕ) (hc : c < n) :
    ∃ L, normalized_csum ws = some L ∧
      ∃ k, ∃ hk : k < L.length, (c : ℚ) / (n : ℚ) < L.get ⟨k, hk⟩ := by
  have hsum := filter_pos_sum_pos ws hw
  have hlast := csum_aux_last ws 0 hw
  set S := (ws.filter (fun w => 0 < w)).sum with hS
  have hlast' : (tgens_csum ws).getLast? = some S := by
    rw [tgens_csum, hlast]; ring_nf
  refine ⟨(tgens_csum ws).map (fun v => v / S), ?_, ?_⟩
  · unfold normalized_csum
    rw [hlast']
  · set L := (tgens_csum ws).map (fun v => v / S) with hL
    have hlastL : L.getLast? = some (S / S) := by
      rw [hL, List.getLast?_map, hlast']
      rfl
    have hSS : S / S = 1 := div_self (ne_of_gt hsum)
    have hLne : L ≠ [] := by
      intro hnil
      rw [hnil] at hlastL
      simp at hlastL
    have hlen : 0 < L.length := List.length_pos.mpr hLne
    refine ⟨L.length - 1, Nat.sub_lt hlen one_pos, ?_⟩
    have h1 : L[L.length - 1]? = some (S / S) := by
      rw [← List.getLast?_eq_getElem?]
      exact hlastL
    rw [List.getElem?_eq_getElem (Nat.sub_lt hlen one_pos)] at h1
    have hval := Option.some.inj h1
    rw [List.get_eq_getElem, hval, hSS]
    have hn : 0 < (n : ℚ) := by
      have : 0 < n := Nat.pos_of_ne_zero (by omega)
      exact_mod_cast this
    rw [div_lt_one hn]
    exact_mod_cast hc

/-- Witness for C5: the shipped configuration (nine weights of `1`),
`numTerrains = 9`, column `c = 5`. -/
theorem column_selection_always_matches_witness :
    (∃ w ∈ pipeline_weights, 0 < w) ∧ (5 : ℕ) < 9 ∧
    (∃ L, normalized_csum pipeline_weights = some L ∧
      ∃ k, ∃ hk : k < L.length, ((5 : ℕ) : ℚ) / ((9 : ℕ) : ℚ) < L.get ⟨k, hk⟩) :=
  ⟨⟨1, by decide⟩, by norm_num,
   column_selection_always_matches pipeline_weights ⟨1, by decide⟩ 9 5 (by norm_num)⟩

/-! ### Scatter indexing out of bounds (claim C9)

`Z = np.ones_like(X) * -np.inf` has shape `(height, width)` (from
`np.meshgrid(range(width), range(height))`), but the scatter indexes it as
`Z[int(hitX*res), int(hitY*res)]`.  On the pipeline's non-square rectangle
(`37 × 77` grid points) the rays sweep `yi` up to `76` while axis 1 of `Z` has
size `37`; the pipeline's own border mesh passes over the ray position
`(0, 40)`, whose hit produces the out-of-bounds index pair `(0, 40)`. -/

lemma pyInt_of_nonneg (q : ℚ) (h : 0 ≤ q) : pyInt q = ⌊q⌋ := by
  rw [pyInt, if_neg (not_lt.mpr h)]

/-- Claim C9 (refuted): at the pipeline's sampling rectangle the grid is
`width = 37`, `height = 77`; the ray for grid point `(0, 40)` is cast at
`(0, 40)`, which lies on the pipeline's border mesh `create_border(32, 72, 2.5)`,
and the resulting hit maps to index pair `(0, 40)` — not a valid index for the
array of shape `(height, width) = (77, 37)`, since `40 ≥ 37` on axis 1. -/
theorem hit_scatter_index_out_of_bounds :
    hm_width (-5/2) (69/2) 1 = 37 ∧
    hm_height (-5/2) (149/2) 1 = 77 ∧
    40 < hm_height (-5/2) (149/2) 1 ∧
    ray_origin_xy 1 0 40 (0, 0) = (0, 40) ∧
    on_surface (create_border 32 72 (5/2)) ⟨0, 40, 0⟩ ∧
    hit_index 1 (0, 40, 0) = (0, 40) ∧
    ¬ valid_index (hm_height (-5/2) (149/2) 1, hm_width (-5/2) (69/2) 1)
        (hit_index 1 (0, 40, 0)) := by
  have hw : hm_width (-5/2) (69/2) 1 = 37 := by
    unfold hm_width
    rw [show ((69/2 : ℚ) - (-5/2)) * 1 = 37 by norm_num,
      pyInt_of_nonneg _ (by norm_num)]
    norm_num
    decide
  have hh : hm_height (-5/2) (149/2) 1 = 77 := by
    unfold hm_height
    rw [show ((149/2 : ℚ) - (-5/2)) * 1 = 77 by norm_num,
      pyInt_of_nonneg _ (by norm_num)]
    norm_num
    decide
  have hidx : hit_index 1 (0, 40, 0) = (0, 40) := by
    unfold hit_index
    rw [show ((0, 40, 0) : ℚ × ℚ × ℚ).1 * 1 = 0 by norm_num,
      show ((0, 40, 0) : ℚ × ℚ × ℚ).2.1 * 1 = 40 by norm_num,
      pyInt_of_nonneg _ (by norm_num), pyInt_of_nonneg _ (by norm_num)]
    norm_num
  refine ⟨hw, hh, by rw [hh]; norm_num, by unfold ray_origin_xy; norm_num, ?_, hidx, ?_⟩
  · refine ⟨(3, 4, 7), by decide,
      ⟨32*0.5 - 32*0.5 - 5/2, 72*0.5 + 72*0.5 + 5/2, 0⟩,
      ⟨32*0.5 - 32*0.5, 72*0.5 - 72*0.5, 0⟩,
      ⟨32*0.5 - 32*0.5, 72*0.5 + 72*0.5, 0⟩, rfl, rfl, rfl,
      0, 4/9, 5/9, le_refl 0, by norm_num, by norm_num, by norm_num,
      by norm_num, by norm_num, by norm_num⟩
  · rw [hidx, hw, hh]
    decide

/-! ### Tilted-block perturbation (claim C8)

`create_block_tilted_top` computes the masks `A` (top vertices), `B`
(positive-X edge) and `C` (positive-Y edge) before any update, so the four
in-place `+=`/`-=` passes add `±n0 ± n1` to the z of the top vertices only.
The combined vertex list is top plane (indices 0–3), wall base (4–7), wall top
(8–11); wall-top vertex `8+j` has the same coordinates as plane vertex `j`, so
it receives the same perturbation and the wall's top ring still coincides with
the tilted top face. -/

lemma mem_zip_self_map {α β : Type} (l : List α) (f : α → β) (pq : α × β)
    (h : pq ∈ l.zip (l.map f)) : pq.2 = f pq.1 := by
  induction l with
  | nil => simp at h
  | cons a t ih =>
    rw [List.map_cons, List.zip_cons_cons] at h
    rcases List.mem_cons.mp h with rfl | h2
    · rfl
    · exact ih h2

/-- Claim C8: in `create_block_tilted_top` (before the final yaw placement) the
tilt magnitudes `n0, n1` are bounded by `±noise`; a vertex not at the top height
is returned unchanged (in particular every base vertex at `z = baseZ`); a top
vertex keeps its x and y and its z moves by `+n0` on the positive-X edge and
`-n0` off it (likewise `+n1 / -n1` along y); and each wall-top vertex stays
equal to the matching top-plane vertex, so the side walls' top silhouette still
matches the tilted top. -/
theorem tilted_block_top_only_perturbation
    (c : ℝ × ℝ) (l w h bh noise r0 r1 : ℝ)
    (hbh : bh ≠ 0) (hn : 0 ≤ noise)
    (hr0l : 0 ≤ r0) (hr0u : r0 ≤ 1) (hr1l : 0 ≤ r1) (hr1u : r1 ≤ 1) :
    |(2 * r0 - 1) * noise| ≤ noise ∧
    |(2 * r1 - 1) * noise| ≤ noise ∧
    (∀ pq ∈ (Surf.concat2 (plane_mesh c l w (h + bh)) (wall_mesh c l w h bh)).verts.zip
        (tilted_block_local c l w h bh noise r0 r1).verts,
      (pq.2.x = pq.1.x ∧ pq.2.y = pq.1.y) ∧
      (pq.1.z ≠ h + bh → pq.2 = pq.1) ∧
      (pq.1.z = h → pq.2 = pq.1) ∧
      (pq.1.z = h + bh →
        pq.2.z = pq.1.z
          + (if pq.1.x = c.1 + l / 2 then (2 * r0 - 1) * noise else -((2 * r0 - 1) * noise))
          + (if pq.1.y = c.2 + w / 2 then (2 * r1 - 1) * noise else -((2 * r1 - 1) * noise)))) ∧
    ((tilted_block_local c l w h bh noise r0 r1).verts.get? 8 =
      (tilted_block_local c l w h bh noise r0 r1).verts.get? 0) ∧
    ((tilted_block_local c l w h bh noise r0 r1).verts.get? 9 =
      (tilted_block_local c l w h bh noise r0 r1).verts.get? 1) ∧
    ((tilted_block_local c l w h bh noise r0 r1).verts.get? 10 =
      (tilted_block_local c l w h bh noise r0 r1).verts.get? 2) ∧
    ((tilted_block_local c l w h bh noise r0 r1).verts.get? 11 =
      (tilted_block_local c l w h bh noise r0 r1).verts.get? 3) := by
  have habs : ∀ r : ℝ, 0 ≤ r → r ≤ 1 → |(2 * r - 1) * noise| ≤ noise := by
    intro r h0 h1
    rw [abs_mul, abs_of_nonneg hn]
    have h2 : |2 * r - 1| ≤ 1 := abs_le.mpr ⟨by linarith, by linarith⟩
    calc |2 * r - 1| * noise ≤ 1 * noise := by
          exact mul_le_mul_of_nonneg_right h2 hn
      _ = noise := one_mul noise
  refine ⟨habs r0 hr0l hr0u, habs r1 hr1l hr1u, ?_, rfl, rfl, rfl, rfl⟩
  intro pq hpq
  have hv : (tilted_block_local c l w h bh noise r0 r1).verts =
      ((Surf.concat2 (plane_mesh c l w (h + bh)) (wall_mesh c l w h bh)).verts).map
        (tilt_shift c l w h bh ((2 * r0 - 1) * noise) ((2 * r1 - 1) * noise)) := rfl
  rw [hv] at hpq
  have hf := mem_zip_self_map _ _ _ hpq
  by_cases hz : pq.1.z = h + bh
  · have ht : tilt_shift c l w h bh ((2 * r0 - 1) * noise) ((2 * r1 - 1) * noise) pq.1 =
        ⟨pq.1.x, pq.1.y, pq.1.z
          + (if pq.1.x = c.1 + l / 2 then (2 * r0 - 1) * noise else -((2 * r0 - 1) * noise))
          + (if pq.1.y = c.2 + w / 2 then (2 * r1 - 1) * noise else -((2 * r1 - 1) * noise))⟩ := by
      simp only [tilt_shift]
      rw [if_pos hz]
    rw [ht] at hf
    refine ⟨⟨by rw [hf], by rw [hf]⟩, fun hne => absurd hz hne, fun hbase => ?_, fun _ => by rw [hf]⟩
    exfalso
    rw [hbase] at hz
    exact hbh (by linarith)
  · have ht : tilt_shift c l w h bh ((2 * r0 - 1) * noise) ((2 * r1 - 1) * noise) pq.1 = pq.1 := by
      simp only [tilt_shift]
      rw [if_neg hz]
    rw [ht] at hf
    exact ⟨⟨by rw [hf], by rw [hf]⟩, fun _ => hf, fun _ => hf, fun heq => absurd heq hz⟩

/-- Witness for C8: a concrete tilted block (`bh = 2 ≠ 0`, `noise = 1/2`,
draws `r0 = 1`, `r1 = 0`). -/
theorem tilted_block_top_only_perturbation_witness :
    ((2 : ℝ) ≠ 0 ∧ (0 : ℝ) ≤ 1/2 ∧ (0 : ℝ) ≤ 1 ∧ (1 : ℝ) ≤ 1 ∧ (0 : ℝ) ≤ 0 ∧ (0 : ℝ) ≤ 1) ∧
    (|(2 * 1 - 1) * (1/2 : ℝ)| ≤ 1/2 ∧
     |(2 * 0 - 1) * (1/2 : ℝ)| ≤ 1/2 ∧
     (∀ pq ∈ (Surf.concat2 (plane_mesh (0, 0) 1 1 ((0 : ℝ) + 2)) (wall_mesh (0, 0) 1 1 0 2)).verts.zip
        (tilted_block_local (0, 0) 1 1 0 2 (1/2) 1 0).verts,
      (pq.2.x = pq.1.x ∧ pq.2.y = pq.1.y) ∧
      (pq.1.z ≠ (0 : ℝ) + 2 → pq.2 = pq.1) ∧
      (pq.1.z = (0 : ℝ) → pq.2 = pq.1) ∧
      (pq.1.z = (0 : ℝ) + 2 →
        pq.2.z = pq.1.z
          + (if pq.1.x = (0 : ℝ) + 1 / 2 then (2 * 1 - 1) * (1/2) else -((2 * 1 - 1) * (1/2)))
          + (if pq.1.y = (0 : ℝ) + 1 / 2 then (2 * 0 - 1) * (1/2) else -((2 * 0 - 1) * (1/2))))) ∧
     ((tilted_block_local (0, 0) 1 1 0 2 (1/2) 1 0).verts.get? 8 =
       (tilted_block_local (0, 0) 1 1 0 2 (1/2) 1 0).verts.get? 0) ∧
     ((tilted_block_local (0, 0) 1 1 0 2 (1/2) 1 0).verts.get? 9 =
       (tilted_block_local (0, 0) 1 1 0 2 (1/2) 1 0).verts.get? 1) ∧
     ((tilted_block_local (0, 0) 1 1 0 2 (1/2) 1 0).verts.get? 10 =
       (tilted_block_local (0, 0) 1 1 0 2 (1/2) 1 0).verts.get? 2) ∧
     ((tilted_block_local (0, 0) 1 1 0 2 (1/2) 1 0).verts.get? 11 =
       (tilted_block_local (0, 0) 1 1 0 2 (1/2) 1 0).verts.get? 3)) :=
  ⟨⟨by norm_num, by norm_num, by norm_num, by norm_num, le_refl 0, by norm_num⟩,
   tilted_block_top_only_perturbation (0, 0) 1 1 0 2 (1/2) 1 0
     (by norm_num) (by norm_num) (by norm_num) (by norm_num) (le_refl 0) (by norm_num)⟩

/-! ### Slope degenerate case and the trig-correction divisions (claim C7)

With the pipeline's slope geometry (`center = (4,4)`, `outer_size = 6`,
`inner_size = 1`) the barred side rotates by `rot = arctan(height / 2.5)`; the
X-correction divides by `maxx = 2.5 · cos rot` and (for `height < 0`, the
going-up case) the Z-correction divides by `minmaxz = -2.5 · sin rot`, both of
which are nonzero whenever the slope is nondegenerate. -/

lemma barred_rot_eval (h : ℝ) : barred_rot 6 1 h = Real.arctan (h / (5/2)) := by
  unfold barred_rot atan2R
  rw [if_pos (by norm_num : (0 : ℝ) < 6/2 - 1/2)]
  norm_num

lemma slope_maxx_eval (h : ℝ) :
    slope_maxx (4, 4) 6 1 h = 5/2 * Real.cos (Real.arctan (h / (5/2))) := by
  unfold slope_maxx barred_slope_rotated Surf.mapPts rotYP shiftZ
  rw [barred_rot_eval]
  simp only [List.map_cons, List.map_nil, listMax, List.foldl]
  have hc : 0 < Real.cos (Real.arctan (h / (5/2))) := Real.cos_arctan_pos _
  have e1 : (4 : ℝ) + 1/2 + Real.cos (Real.arctan (h / (5/2))) * (4 + 6/2 - (4 + 1/2))
      + Real.sin (Real.arctan (h / (5/2))) * 0 - 4 - 1/2
      = 5/2 * Real.cos (Real.arctan (h / (5/2))) := by ring
  have e2 : (4 : ℝ) + 1/2 + Real.cos (Real.arctan (h / (5/2))) * (4 + 1/2 - (4 + 1/2))
      + Real.sin (Real.arctan (h / (5/2))) * 0 - 4 - 1/2 = 0 := by ring
  rw [e1, e2, max_self, max_eq_left (le_max_right _ _), max_eq_left (by linarith)]

lemma slope_minmaxz_eval (h : ℝ) (hneg : h < 0) :
    slope_minmaxz (4, 4) 6 1 h = -(5/2 * Real.sin (Real.arctan (h / (5/2)))) := by
  have hs : Real.sin (Real.arctan (h / (5/2))) < 0 := by
    rw [Real.sin_arctan]
    apply div_neg_of_neg_of_pos
    · apply div_neg_of_neg_of_pos hneg
      norm_num
    · apply Real.sqrt_pos.mpr
      positivity
  unfold slope_minmaxz barred_slope_rotated Surf.mapPts rotYP shiftZ
  rw [if_pos hneg, barred_rot_eval]
  simp only [List.map_cons, List.map_nil, listMax, List.foldl]
  have e1 : -(Real.sin (Real.arctan (h / (5/2)))) * (4 + 6/2 - (4 + 1/2))
      + Real.cos (Real.arctan (h / (5/2))) * 0 + h - h
      = -(5/2 * Real.sin (Real.arctan (h / (5/2)))) := by ring
  have e2 : -(Real.sin (Real.arctan (h / (5/2)))) * (4 + 1/2 - (4 + 1/2))
      + Real.cos (Real.arctan (h / (5/2))) * 0 + h - h = 0 := by ring
  rw [e1, e2, max_self, max_eq_left (le_max_right _ _), max_eq_left (by linarith)]

/-- Claim C7: a slope with `total_height == 0` short-circuits to the flat square
plane (the barred sides with their corrections are never built), and for every
nondegenerate difficulty the two division denominators of the barred-slope
correction (`maxx` and `minmaxz`, at the exact geometry the slope terrain passes:
`center (4,4)`, `outer 6`, `inner 1`, `height = -0.5·difficulty`) are nonzero, so
no division by zero occurs for any difficulty in `[0, 1]`. -/
theorem slope_degenerate_short_circuit (d : ℝ) (h0 : 0 ≤ d) (h1 : d ≤ 1) :
    (0.5 * d = 0 →
      generate_slope_terrain 8 (0.5 * d) (0.08 * d) 0.2 1 true =
        create_square_plane (8/2, 8/2) 8 0 0) ∧
    (0.5 * d ≠ 0 →
      slope_maxx (4, 4) 6 1 (-(0.5 * d)) ≠ 0 ∧
      slope_minmaxz (4, 4) 6 1 (-(0.5 * d)) ≠ 0) := by
  constructor
  · intro hz
    simp only [generate_slope_terrain]
    rw [if_pos hz]
  · intro hnz
    have hdpos : 0 < d := lt_of_le_of_ne h0 (fun hv => hnz (by rw [← hv]; ring))
    have hneg : -(0.5 * d) < 0 := by nlinarith
    constructor
    · rw [slope_maxx_eval]
      have := Real.cos_arctan_pos (-(0.5 * d) / (5/2))
      positivity
    · rw [slope_minmaxz_eval _ hneg]
      have hs : Real.sin (Real.arctan (-(0.5 * d) / (5/2))) < 0 := by
        rw [Real.sin_arctan]
        apply div_neg_of_neg_of_pos
        · apply div_neg_of_neg_of_pos hneg
          norm_num
        · apply Real.sqrt_pos.mpr
          positivity
      intro hcontra
      nlinarith

/-- Witness for C7: difficulty `1`. -/
theorem slope_degenerate_short_circuit_witness :
    ((0 : ℝ) ≤ 1 ∧ (1 : ℝ) ≤ 1) ∧
    ((0.5 * (1 : ℝ) = 0 →
      generate_slope_terrain 8 (0.5 * 1) (0.08 * 1) 0.2 1 true =
        create_square_plane (8/2, 8/2) 8 0 0) ∧
    (0.5 * (1 : ℝ) ≠ 0 →
      slope_maxx (4, 4) 6 1 (-(0.5 * 1)) ≠ 0 ∧
      slope_minmaxz (4, 4) 6 1 (-(0.5 * 1)) ≠ 0)) :=
  ⟨⟨by norm_num, le_refl 1⟩, slope_degenerate_short_circuit 1 (by norm_num) (le_refl 1)⟩

/-! ### Random-blocks rejection loop (claim C10) -/

lemma block_loop_mem_bounds (T minbs maxbs maxbh im om : ℝ) (u : ℕ → ℝ)
    (hu : ∀ n, 0 ≤ u n ∧ u n < 1) (hom : 2 * om ≤ T) (hbs : minbs ≤ maxbs) :
    ∀ fuel idx k acc out,
      block_loop T minbs maxbs maxbh im om u fuel idx k acc = some out →
      (∀ b ∈ acc, block_ok T minbs maxbs im om b) →
      ∀ b ∈ out, block_ok T minbs maxbs im om b := by
  intro fuel
  induction fuel with
  | zero =>
    intro idx k acc out hrun hacc
    simp only [block_loop] at hrun
    split_ifs at hrun
    · rw [← Option.some.inj hrun]
      exact hacc
  | succ fuel ih =>
    intro idx k acc out hrun hacc
    simp only [block_loop] at hrun
    split_ifs at hrun with h100 hrej
    · rw [← Option.some.inj hrun]
      exact hacc
    · exact ih _ _ _ _ hrun hacc
    · refine ih _ _ _ _ hrun ?_
      intro b hb
      rcases List.mem_append.mp hb with hold | hnew
      · exact hacc b hold
      · have hTom : 0 ≤ T - 2 * om := by linarith
        have hxl : om ≤ u idx * (T - 2 * om) + om := by
          have := mul_nonneg (hu idx).1 hTom
          linarith
        have hxu : u idx * (T - 2 * om) + om ≤ T - om := by
          have := mul_le_of_le_one_left hTom (le_of_lt (hu idx).2)
          linarith
        have hyl : om ≤ u (idx + 1) * (T - 2 * om) + om := by
          have := mul_nonneg (hu (idx + 1)).1 hTom
          linarith
        have hyu : u (idx + 1) * (T - 2 * om) + om ≤ T - om := by
          have := mul_le_of_le_one_left hTom (le_of_lt (hu (idx + 1)).2)
          linarith
        have hΔ : 0 ≤ maxbs - minbs := by linarith
        have hll : minbs ≤ u (idx + 3) * (maxbs - minbs) + minbs := by
          have := mul_nonneg (hu (idx + 3)).1 hΔ
          linarith
        have hlu : u (idx + 3) * (maxbs - minbs) + minbs ≤ maxbs := by
          have := mul_le_of_le_one_left hΔ (le_of_lt (hu (idx + 3)).2)
          linarith
        have hwl : minbs ≤ u (idx + 4) * (maxbs - minbs) + minbs := by
          have := mul_nonneg (hu (idx + 4)).1 hΔ
          linarith
        have hwu : u (idx + 4) * (maxbs - minbs) + minbs ≤ maxbs := by
          have := mul_le_of_le_one_left hΔ (le_of_lt (hu (idx + 4)).2)
          linarith
        rw [List.mem_singleton.mp hnew]
        exact ⟨hxl, hxu, hyl, hyu, hrej, hll, hlu, hwl, hwu⟩

lemma block_loop_length (T minbs maxbs maxbh im om : ℝ) (u : ℕ → ℝ) :
    ∀ fuel idx k acc out,
      block_loop T minbs maxbs maxbh im om u fuel idx k acc = some out →
      acc.length = k → k ≤ 100 → out.length = 100 := by
  intro fuel
  induction fuel with
  | zero =>
    intro idx k acc out hrun hlen hk
    simp only [block_loop] at hrun
    split_ifs at hrun with h100
    · rw [← Option.some.inj hrun, hlen]
      omega
  | succ fuel ih =>
    intro idx k acc out hrun hlen hk
    simp only [block_loop] at hrun
    split_ifs at hrun with h100 hrej
    · rw [← Option.some.inj hrun, hlen]
      omega
    · exact ih _ _ _ _ hrun hlen hk
    · refine ih _ _ _ _ hrun ?_ ?_
      · rw [List.length_append, hlen]
        rfl
      · omega

lemma block_loop_finds_fuel (T minbs maxbs maxbh im om : ℝ) (u : ℕ → ℝ)
    (H : ∀ m, ∃ j, m ≤ j ∧ accepted_at T im om u (2 * j)) :
    ∀ r k acc m, 100 ≤ k + r →
      ∃ fuel out, block_loop T minbs maxbs maxbh im om u fuel (2 * m) k acc = some out := by
  intro r
  induction r with
  | zero =>
    intro k acc m h100
    refine ⟨0, acc, ?_⟩
    simp only [block_loop]
    rw [if_pos (by omega)]
  | succ r ih =>
    intro k acc m h100
    by_cases hk : 100 ≤ k
    · refine ⟨0, acc, ?_⟩
      simp only [block_loop]
      rw [if_pos hk]
    · obtain ⟨j, hjm, hjacc⟩ := H m
      have inner : ∀ t m', (∃ j', m' ≤ j' ∧ j' ≤ m' + t ∧ accepted_at T im om u (2 * j')) →
          ∃ fuel out, block_loop T minbs maxbs maxbh im om u fuel (2 * m') k acc = some out := by
        intro t
        induction t with
        | zero =>
          intro m' hj
          obtain ⟨j', hj1, hj2, hjac⟩ := hj
          have hjm' : j' = m' := le_antisymm (by omega) hj1
          rw [hjm'] at hjac
          obtain ⟨fuel1, out1, hrun1⟩ := ih (k + 1)
            (acc ++ [(⟨u (2 * m') * (T - 2 * om) + om,
                     u (2 * m' + 1) * (T - 2 * om) + om,
                     u (2 * m' + 2) * 3.1415,
                     u (2 * m' + 3) * (maxbs - minbs) + minbs,
                     u (2 * m' + 4) * (maxbs - minbs) + minbs,
                     u (2 * m' + 5) * maxbh⟩ : BlockSpec)]) (m' + 3) (by omega)
          refine ⟨fuel1 + 1, out1, ?_⟩
          simp only [block_loop]
          rw [if_neg hk, if_neg (by simpa [accepted_at] using hjac)]
          rw [show 2 * m' + 6 = 2 * (m' + 3) by ring]
          exact hrun1
        | succ t iht =>
          intro m' hj
          obtain ⟨j', hj1, hj2, hjac⟩ := hj
          by_cases hacc2 : accepted_at T im om u (2 * m')
          · obtain ⟨fuel1, out1, hrun1⟩ := ih (k + 1)
              (acc ++ [(⟨u (2 * m') * (T - 2 * om) + om,
                       u (2 * m' + 1) * (T - 2 * om) + om,
                       u (2 * m' + 2) * 3.1415,
                       u (2 * m' + 3) * (maxbs - minbs) + minbs,
                       u (2 * m' + 4) * (maxbs - minbs) + minbs,
                       u (2 * m' + 5) * maxbh⟩ : BlockSpec)]) (m' + 3) (by omega)
            refine ⟨fuel1 + 1, out1, ?_⟩
            simp only [block_loop]
            rw [if_neg hk, if_neg (by simpa [accepted_at] using hacc2)]
            rw [show 2 * m' + 6 = 2 * (m' + 3) by ring]
            exact hrun1
          · have hj1' : m' + 1 ≤ j' := by
              rcases Nat.lt_or_ge m' j' with hlt | hge
              · omega
              · exfalso
                have : j' = m' := by omega
                rw [this] at hjac
                exact hacc2 hjac
            obtain ⟨fuel1, out1, hrun1⟩ := iht (m' + 1) ⟨j', hj1', by omega, hjac⟩
            refine ⟨fuel1 + 1, out1, ?_⟩
            simp only [block_loop]
            rw [if_neg hk, if_pos (not_not.mp (by simpa [accepted_at] using hacc2))]
            rw [show 2 * m' + 2 = 2 * (m' + 1) by ring]
            exact hrun1
      exact inner (j - m) m ⟨j, hjm, by omega, hjacc⟩

/-- Claim C10: with the default margins `outer_margin = 0.75·max_block_size` and
`inner_margin = 0.75·max_block_size + 0.5·platform_size`, if the random stream
keeps producing an accepted position sample, the rejection-resampling loop of
the random-blocks generator terminates with some fuel, places exactly `100`
blocks, and every placed block's centre `(x, y)` satisfies
`outer_margin ≤ x, y ≤ terrain_size - outer_margin` and is not within
`inner_margin` of the terrain centre in both coordinates simultaneously. -/
theorem random_blocks_loop_places_100 (T minbs maxbs maxbh ps : ℝ) (u : ℕ → ℝ)
    (hu : ∀ n, 0 ≤ u n ∧ u n < 1) (hbs : minbs ≤ maxbs)
    (hom : 2 * (maxbs * 0.75) ≤ T)
    (H : ∀ m, ∃ j, m ≤ j ∧
      accepted_at T (maxbs * 0.75 + ps * 0.5) (maxbs * 0.75) u (2 * j)) :
    ∃ fuel out,
      block_loop T minbs maxbs maxbh (maxbs * 0.75 + ps * 0.5) (maxbs * 0.75) u
        fuel 0 0 [] = some out ∧
      out.length = 100 ∧
      ∀ b ∈ out, block_ok T minbs maxbs (maxbs * 0.75 + ps * 0.5) (maxbs * 0.75) b := by
  obtain ⟨fuel, out, hrun⟩ :=
    block_loop_finds_fuel T minbs maxbs maxbh (maxbs * 0.75 + ps * 0.5) (maxbs * 0.75) u H
      100 0 [] 0 (by omega)
  rw [show 2 * 0 = 0 by ring] at hrun
  refine ⟨fuel, out, hrun, ?_, ?_⟩
  · exact block_loop_length T minbs maxbs maxbh _ _ u fuel 0 0 [] out hrun rfl (by omega)
  · exact block_loop_mem_bounds T minbs maxbs maxbh _ _ u hu hom hbs fuel 0 0 [] out hrun
      (by intro b hb; simp at hb)

/-- Witness for C10: the pipeline's parameters (`terrain_size 8`, block sizes
in `[0.5, 1]`, platform `0.75`) and the constant-zero stream, whose every
position sample `(0.75, 0.75)` is accepted. -/
theorem random_blocks_loop_places_100_witness :
    ((∀ n : ℕ, 0 ≤ (fun _ : ℕ => (0 : ℝ)) n ∧ (fun _ : ℕ => (0 : ℝ)) n < 1) ∧
     (0.5 : ℝ) ≤ 1 ∧ 2 * ((1 : ℝ) * 0.75) ≤ 8 ∧
     (∀ m : ℕ, ∃ j, m ≤ j ∧
       accepted_at 8 ((1 : ℝ) * 0.75 + 0.75 * 0.5) ((1 : ℝ) * 0.75)
         (fun _ : ℕ => (0 : ℝ)) (2 * j))) ∧
    (∃ fuel out,
      block_loop 8 0.5 1 (0.1 * 1) ((1 : ℝ) * 0.75 + 0.75 * 0.5) ((1 : ℝ) * 0.75)
        (fun _ : ℕ => (0 : ℝ)) fuel 0 0 [] = some out ∧
      out.length = 100 ∧
      ∀ b ∈ out, block_ok 8 0.5 1 ((1 : ℝ) * 0.75 + 0.75 * 0.5) ((1 : ℝ) * 0.75) b) := by
  have hu : ∀ n : ℕ, 0 ≤ (fun _ : ℕ => (0 : ℝ)) n ∧ (fun _ : ℕ => (0 : ℝ)) n < 1 :=
    fun n => ⟨le_refl 0, by norm_num⟩
  have H : ∀ m : ℕ, ∃ j, m ≤ j ∧
      accepted_at 8 ((1 : ℝ) * 0.75 + 0.75 * 0.5) ((1 : ℝ) * 0.75)
        (fun _ : ℕ => (0 : ℝ)) (2 * j) := by
    intro m
    refine ⟨m, le_refl m, ?_⟩
    unfold accepted_at
    rw [not_and_or]
    left
    rw [abs_lt]
    norm_num
  exact ⟨⟨hu, by norm_num, by norm_num, H⟩,
    random_blocks_loop_places_100 8 0.5 1 (0.1 * 1) 0.75 (fun _ => 0) hu
      (by norm_num) (by norm_num) H⟩

/-! ### Footprint invariant: toolkit (claim C1) -/

lemma concat2_verts (a b : Surf) : (Surf.concat2 a b).verts = a.verts ++ b.verts := rfl

lemma concatAll_verts_aux (l : List Surf) (acc : Surf) :
    (l.foldl Surf.concat2 acc).verts = acc.verts ++ (l.map Surf.verts).flatten := by
  induction l generalizing acc with
  | nil => simp
  | cons s t ih =>
    simp only [List.foldl_cons, List.map_cons, List.flatten_cons]
    rw [ih (Surf.concat2 acc s), concat2_verts, List.append_assoc]

lemma concatAll_verts (l : List Surf) :
    (concatAll l).verts = (l.map Surf.verts).flatten := by
  rw [concatAll, concatAll_verts_aux]
  rfl

lemma mem_concatAll {p : P3} {l : List Surf} :
    p ∈ (concatAll l).verts ↔ ∃ s ∈ l, p ∈ s.verts := by
  rw [concatAll_verts, List.mem_flatten]
  constructor
  · rintro ⟨vs, hvs, hp⟩
    obtain ⟨s, hs, rfl⟩ := List.mem_map.mp hvs
    exact ⟨s, hs, hp⟩
  · rintro ⟨s, hs, hp⟩
    exact ⟨s.verts, List.mem_map.mpr ⟨s, hs, rfl⟩, hp⟩

lemma create_plane_yaw0 (c : ℝ × ℝ) (l w z : ℝ) :
    create_plane c l w z 0 = plane_mesh c l w z := by
  simp [create_plane]

lemma create_square_plane_yaw0 (c : ℝ × ℝ) (w z : ℝ) :
    create_square_plane c w z 0 = plane_mesh c w w z := by
  rw [create_square_plane, create_plane_yaw0]

lemma create_wall_yaw0 (c : ℝ × ℝ) (l w h sh : ℝ) :
    create_wall c l w h sh 0 = wall_mesh c l w h sh := by
  simp [create_wall]

lemma create_square_wall_yaw0 (c : ℝ × ℝ) (w h sh : ℝ) :
    create_square_wall c w h sh 0 = wall_mesh c w w h sh := by
  rw [create_square_wall, create_wall_yaw0]

lemma create_block_yaw0 (c : ℝ × ℝ) (l w h bh : ℝ) :
    create_block c l w h bh 0 =
      Surf.concat2 (plane_mesh c l w (h + bh)) (wall_mesh c l w h bh) := by
  simp [create_block, create_plane_yaw0, create_wall_yaw0]

lemma create_square_block_yaw0 (c : ℝ × ℝ) (w h bh : ℝ) :
    create_square_block c w h bh 0 =
      Surf.concat2 (plane_mesh c w w (h + bh)) (wall_mesh c w w h bh) := by
  rw [create_square_block, create_block_yaw0]

lemma plane_mesh_in_rect (c : ℝ × ℝ) (l w z x0 x1 y0 y1 : ℝ)
    (hl : 0 ≤ l) (hw : 0 ≤ w)
    (h1 : x0 ≤ c.1 - l / 2) (h2 : c.1 + l / 2 ≤ x1)
    (h3 : y0 ≤ c.2 - w / 2) (h4 : c.2 + w / 2 ≤ y1) :
    ∀ p ∈ (plane_mesh c l w z).verts, in_rect x0 x1 y0 y1 p := by
  intro p hp
  simp only [plane_mesh, List.mem_cons, List.not_mem_nil, or_false] at hp
  rcases hp with rfl | rfl | rfl | rfl <;>
    exact ⟨by dsimp; linarith, by dsimp; linarith, by dsimp; linarith, by dsimp; linarith⟩

lemma wall_mesh_in_rect (c : ℝ × ℝ) (l w h sh x0 x1 y0 y1 : ℝ)
    (hl : 0 ≤ l) (hw : 0 ≤ w)
    (h1 : x0 ≤ c.1 - l / 2) (h2 : c.1 + l / 2 ≤ x1)
    (h3 : y0 ≤ c.2 - w / 2) (h4 : c.2 + w / 2 ≤ y1) :
    ∀ p ∈ (wall_mesh c l w h sh).verts, in_rect x0 x1 y0 y1 p := by
  intro p hp
  simp only [wall_mesh, List.mem_cons, List.not_mem_nil, or_false] at hp
  rcases hp with rfl | rfl | rfl | rfl | rfl | rfl | rfl | rfl <;>
    exact ⟨by dsimp; linarith, by dsimp; linarith, by dsimp; linarith, by dsimp; linarith⟩

lemma hole_mesh_in_rect (c : ℝ × ℝ) (outer inner z x0 x1 y0 y1 : ℝ)
    (hio : inner ≤ outer) (hi : 0 ≤ inner)
    (h1 : x0 ≤ c.1 - outer / 2) (h2 : c.1 + outer / 2 ≤ x1)
    (h3 : y0 ≤ c.2 - outer / 2) (h4 : c.2 + outer / 2 ≤ y1) :
    ∀ p ∈ (create_square_plane_with_hole c outer inner z).verts, in_rect x0 x1 y0 y1 p := by
  intro p hp
  simp only [create_square_plane_with_hole, List.mem_cons, List.not_mem_nil, or_false] at hp
  rcases hp with rfl | rfl | rfl | rfl | rfl | rfl | rfl | rfl <;>
    exact ⟨by dsimp; linarith, by dsimp; linarith, by dsimp; linarith, by dsimp; linarith⟩

lemma bbox_from (S : Surf) (x0 x1 y0 y1 : ℝ)
    (hb : ∀ p ∈ S.verts, in_rect x0 x1 y0 y1 p)
    (p1 p2 : P3) (h1 : p1 ∈ S.verts) (h2 : p2 ∈ S.verts)
    (e1 : p1.x = x0) (e2 : p1.y = y0) (e3 : p2.x = x1) (e4 : p2.y = y1) :
    bbox_xy_eq S x0 x1 y0 y1 :=
  ⟨hb, ⟨p1, h1, e1⟩, ⟨p2, h2, e3⟩, ⟨p1, h1, e2⟩, ⟨p2, h2, e4⟩⟩

lemma plane_mesh_corner_mem (c : ℝ × ℝ) (l w z : ℝ) :
    (⟨c.1 - l / 2, c.2 - w / 2, z⟩ : P3) ∈ (plane_mesh c l w z).verts ∧
    (⟨c.1 + l / 2, c.2 + w / 2, z⟩ : P3) ∈ (plane_mesh c l w z).verts := by
  constructor <;> simp [plane_mesh]

lemma hole_mesh_corner_mem (c : ℝ × ℝ) (outer inner z : ℝ) :
    (⟨c.1 - outer / 2, c.2 - outer / 2, z⟩ : P3) ∈
      (create_square_plane_with_hole c outer inner z).verts ∧
    (⟨c.1 + outer / 2, c.2 + outer / 2, z⟩ : P3) ∈
      (create_square_plane_with_hole c outer inner z).verts := by
  constructor <;> simp [create_square_plane_with_hole]

/-! #### Flat terrain bounding box -/

lemma flat_bbox (d : ℝ) : bbox_xy_eq (flat d) 0 8 0 8 := by
  unfold flat generate_flat_terrain
  rw [create_square_plane_yaw0]
  refine bbox_from _ 0 8 0 8 ?_
    ⟨((8:ℝ)/2, (8:ℝ)/2).1 - 8 / 2, ((8:ℝ)/2, (8:ℝ)/2).2 - 8 / 2, 0⟩
    ⟨((8:ℝ)/2, (8:ℝ)/2).1 + 8 / 2, ((8:ℝ)/2, (8:ℝ)/2).2 + 8 / 2, 0⟩
    (mem_concatAll.mpr ⟨_, List.mem_singleton.mpr rfl,
      (plane_mesh_corner_mem ((8:ℝ)/2, (8:ℝ)/2) 8 8 0).1⟩)
    (mem_concatAll.mpr ⟨_, List.mem_singleton.mpr rfl,
      (plane_mesh_corner_mem ((8:ℝ)/2, (8:ℝ)/2) 8 8 0).2⟩)
    (by norm_num) (by norm_num) (by norm_num) (by norm_num)
  intro p hp
  rcases mem_concatAll.mp hp with ⟨s, hs, hps⟩
  rw [List.mem_singleton.mp hs] at hps
  exact plane_mesh_in_rect _ 8 8 0 0 8 0 8 (by norm_num) (by norm_num)
    (by norm_num) (by norm_num) (by norm_num) (by norm_num) p hps

/-! #### Square-centric terrain bounding box -/

lemma square_obstacle_in_rect (c : ℝ × ℝ) (outer inner h sh x0 x1 y0 y1 : ℝ)
    (hio : inner ≤ outer) (hi : 0 ≤ inner)
    (h1 : x0 ≤ c.1 - outer / 2) (h2 : c.1 + outer / 2 ≤ x1)
    (h3 : y0 ≤ c.2 - outer / 2) (h4 : c.2 + outer / 2 ≤ y1) :
    ∀ p ∈ (create_square_obstacle c outer inner h sh).verts, in_rect x0 x1 y0 y1 p := by
  intro p hp
  unfold create_square_obstacle at hp
  rw [create_square_wall_yaw0, create_square_wall_yaw0] at hp
  rcases mem_concatAll.mp hp with ⟨s, hs, hps⟩
  simp only [List.mem_cons, List.not_mem_nil, or_false] at hs
  rcases hs with rfl | rfl | rfl
  · exact wall_mesh_in_rect c inner inner _ _ x0 x1 y0 y1 hi hi
      (by linarith) (by linarith) (by linarith) (by linarith) p hps
  · exact hole_mesh_in_rect c outer inner _ x0 x1 y0 y1 hio hi h1 h2 h3 h4 p hps
  · exact wall_mesh_in_rect c outer outer _ _ x0 x1 y0 y1 (by linarith) (by linarith)
      h1 h2 h3 h4 p hps

lemma square_centric_num_steps : (pyIntR (((8:ℝ) - 1) / 2 / 0.7)).toNat = 5 := by
  unfold pyIntR
  rw [if_neg (by norm_num), show ((8:ℝ) - 1) / 2 / 0.7 = 5 by norm_num]
  norm_num
  decide

lemma square_centric_bbox (d : ℝ) : bbox_xy_eq (square_centric d) 0 8 0 8 := by
  simp only [square_centric, generate_square_centric_terrain]
  rw [square_centric_num_steps, create_square_plane_yaw0]
  refine bbox_from _ 0 8 0 8 ?_
    ⟨((8:ℝ)/2, (8:ℝ)/2).1 - 8 / 2, ((8:ℝ)/2, (8:ℝ)/2).2 - 8 / 2, 0⟩
    ⟨((8:ℝ)/2, (8:ℝ)/2).1 + 8 / 2, ((8:ℝ)/2, (8:ℝ)/2).2 + 8 / 2, 0⟩
    (mem_concatAll.mpr ⟨_, List.mem_cons_self _ _,
      (plane_mesh_corner_mem ((8:ℝ)/2, (8:ℝ)/2) 8 8 0).1⟩)
    (mem_concatAll.mpr ⟨_, List.mem_cons_self _ _,
      (plane_mesh_corner_mem ((8:ℝ)/2, (8:ℝ)/2) 8 8 0).2⟩)
    (by norm_num) (by norm_num) (by norm_num) (by norm_num)
  intro p hp
  rcases mem_concatAll.mp hp with ⟨s, hs, hps⟩
  rcases List.mem_cons.mp hs with rfl | hs2
  · exact plane_mesh_in_rect _ 8 8 0 0 8 0 8 (by norm_num) (by norm_num)
      (by norm_num) (by norm_num) (by norm_num) (by norm_num) p hps
  · obtain ⟨i, hi, rfl⟩ := List.mem_map.mp hs2
    have hi5 : i < 5 := List.mem_range.mp hi
    have hiR : (i : ℝ) ≤ 4 := by
      have : i ≤ 4 := by omega
      exact_mod_cast this
    have hiR0 : (0 : ℝ) ≤ (i : ℝ) := Nat.cast_nonneg i
    refine square_obstacle_in_rect ((8:ℝ)/2, (8:ℝ)/2) ((1 + 2 * 0.7 * (i:ℝ)) + 0.6)
      (1 + 2 * 0.7 * (i:ℝ)) 0 (0.08 * d) 0 8 0 8 ?_ ?_ ?_ ?_ ?_ ?_ p hps
    · linarith
    · linarith
    · norm_num
      linarith
    · norm_num
      linarith
    · norm_num
      linarith
    · norm_num
      linarith

/-! #### Stairs terrain bounding box -/

lemma stairs_bbox (sh : ℝ) (gu : Bool) :
    bbox_xy_eq (generate_pyramid_stairs_terrain 8 0.6 sh 1 gu) 0 8 0 8 := by
  simp only [generate_pyramid_stairs_terrain]
  rw [stairs_num_steps_pipeline]
  rw [show (5:ℤ).toNat = 5 from rfl]
  refine bbox_from _ 0 8 0 8 ?_ _ _
    (mem_concatAll.mpr ⟨_, List.mem_cons_of_mem _
      (List.mem_flatMap.mpr ⟨4, List.mem_range.mpr (by norm_num), List.mem_cons_self _ _⟩),
      (hole_mesh_corner_mem _ _ _ _).1⟩)
    (mem_concatAll.mpr ⟨_, List.mem_cons_of_mem _
      (List.mem_flatMap.mpr ⟨4, List.mem_range.mpr (by norm_num), List.mem_cons_self _ _⟩),
      (hole_mesh_corner_mem _ _ _ _).2⟩)
    ?_ ?_ ?_ ?_
  · intro p hp
    rcases mem_concatAll.mp hp with ⟨s, hs, hps⟩
    rcases List.mem_cons.mp hs with rfl | hs2
    · rw [create_square_plane_yaw0] at hps
      exact plane_mesh_in_rect _ 1 1 _ 0 8 0 8 (by norm_num) (by norm_num)
        (by norm_num) (by norm_num) (by norm_num) (by norm_num) p hps
    · obtain ⟨i, hi, hsi⟩ := List.mem_flatMap.mp hs2
      have hi5 : i < 5 := List.mem_range.mp hi
      have hiR : (i : ℝ) ≤ 4 := by
        have : i ≤ 4 := by omega
        exact_mod_cast this
      have hiR0 : (0 : ℝ) ≤ (i : ℝ) := Nat.cast_nonneg i
      have houter : (if i = 5 - 1 then (8:ℝ) else 1 + 2 * 0.6 * ((i:ℝ) + 1)) ≤ 8 := by
        split_ifs
        · norm_num
        · linarith
      have hio : 1 + 2 * 0.6 * (i:ℝ) ≤ (if i = 5 - 1 then (8:ℝ) else 1 + 2 * 0.6 * ((i:ℝ) + 1)) := by
        split_ifs
        · linarith
        · linarith
      have hin0 : (0:ℝ) ≤ 1 + 2 * 0.6 * (i:ℝ) := by linarith
      simp only [List.mem_cons, List.not_mem_nil, or_false] at hsi
      rcases hsi with rfl | rfl
      · refine hole_mesh_in_rect ((8:ℝ)/2, (8:ℝ)/2) _ _ _ 0 8 0 8 hio hin0 ?_ ?_ ?_ ?_ p hps
        · norm_num
          linarith
        · norm_num
          linarith
        · norm_num
          linarith
        · norm_num
          linarith
      · rw [create_square_wall_yaw0] at hps
        refine wall_mesh_in_rect ((8:ℝ)/2, (8:ℝ)/2) _ _ _ _ 0 8 0 8 hin0 hin0 ?_ ?_ ?_ ?_ p hps
        · norm_num
          linarith
        · norm_num
          linarith
        · norm_num
          linarith
        · norm_num
          linarith
  · rw [show (if (4:ℕ) = 5 - 1 then (8:ℝ) else 1 + 2 * 0.6 * (((4:ℕ):ℝ) + 1)) = 8 from
      if_pos (by norm_num)]
    norm_num
  · rw [show (if (4:ℕ) = 5 - 1 then (8:ℝ) else 1 + 2 * 0.6 * (((4:ℕ):ℝ) + 1)) = 8 from
      if_pos (by norm_num)]
    norm_num
  · rw [show (if (4:ℕ) = 5 - 1 then (8:ℝ) else 1 + 2 * 0.6 * (((4:ℕ):ℝ) + 1)) = 8 from
      if_pos (by norm_num)]
    norm_num
  · rw [show (if (4:ℕ) = 5 - 1 then (8:ℝ) else 1 + 2 * 0.6 * (((4:ℕ):ℝ) + 1)) = 8 from
      if_pos (by norm_num)]
    norm_num

/-! #### Tilted-squares and checkers bounding boxes -/

lemma tilt_shift_xy (c : ℝ × ℝ) (l w h bh n0 n1 : ℝ) (q : P3) :
    (tilt_shift c l w h bh n0 n1 q).x = q.x ∧ (tilt_shift c l w h bh n0 n1 q).y = q.y := by
  unfold tilt_shift
  split_ifs <;> exact ⟨rfl, rfl⟩

lemma tilted_block_local_in_rect (c : ℝ × ℝ) (l w h bh no r0 r1 x0 x1 y0 y1 : ℝ)
    (hl : 0 ≤ l) (hw : 0 ≤ w)
    (h1 : x0 ≤ c.1 - l / 2) (h2 : c.1 + l / 2 ≤ x1)
    (h3 : y0 ≤ c.2 - w / 2) (h4 : c.2 + w / 2 ≤ y1) :
    ∀ p ∈ (tilted_block_local c l w h bh no r0 r1).verts, in_rect x0 x1 y0 y1 p := by
  intro p hp
  obtain ⟨q, hq, rfl⟩ := List.mem_map.mp hp
  have hxy := tilt_shift_xy c l w h bh ((2 * r0 - 1) * no) ((2 * r1 - 1) * no) q
  have hq2 : in_rect x0 x1 y0 y1 q := by
    rcases List.mem_append.mp hq with hq1 | hq1
    · exact plane_mesh_in_rect c l w _ x0 x1 y0 y1 hl hw h1 h2 h3 h4 q hq1
    · exact wall_mesh_in_rect c l w _ _ x0 x1 y0 y1 hl hw h1 h2 h3 h4 q hq1
  exact ⟨hxy.1 ▸ hq2.1, hxy.1 ▸ hq2.2.1, hxy.2 ▸ hq2.2.2.1, hxy.2 ▸ hq2.2.2.2⟩

lemma grid_N_16 : (pyIntR ((8:ℝ) / 0.5)).toNat = 16 := by
  unfold pyIntR
  rw [if_neg (by norm_num), show (8:ℝ) / 0.5 = 16 by norm_num]
  norm_num
  decide

lemma tilted_squares_bbox (bh no : ℝ) (r : ℕ → ℝ × ℝ) :
    bbox_xy_eq (generate_tilted_squares_terrain 8 0.5 bh 1 no r) 0 8 0 8 := by
  simp only [generate_tilted_squares_terrain]
  rw [grid_N_16]
  refine bbox_from _ 0 8 0 8 ?_ _ _
    (mem_concatAll.mpr ⟨_, List.mem_append_right _ (List.mem_singleton.mpr rfl),
      (hole_mesh_corner_mem ((8:ℝ)/2, (8:ℝ)/2) 8 (8 - 2 * 0.5) 0).1⟩)
    (mem_concatAll.mpr ⟨_, List.mem_append_right _ (List.mem_singleton.mpr rfl),
      (hole_mesh_corner_mem ((8:ℝ)/2, (8:ℝ)/2) 8 (8 - 2 * 0.5) 0).2⟩)
    (by norm_num) (by norm_num) (by norm_num) (by norm_num)
  intro p hp
  rcases mem_concatAll.mp hp with ⟨s, hs, hps⟩
  rcases List.mem_append.mp hs with hcell | hborder
  · obtain ⟨i, hi, hsi⟩ := List.mem_flatMap.mp hcell
    obtain ⟨j, hj, hsj⟩ := List.mem_flatMap.mp hsi
    obtain ⟨hi1, hi2⟩ := List.mem_range'_1.mp hi
    obtain ⟨hj1, hj2⟩ := List.mem_range'_1.mp hj
    have hiR : (1:ℝ) ≤ (i:ℝ) ∧ (i:ℝ) ≤ 14 := by
      constructor
      · exact_mod_cast hi1
      · have : i ≤ 14 := by omega
        exact_mod_cast this
    have hjR : (1:ℝ) ≤ (j:ℝ) ∧ (j:ℝ) ≤ 14 := by
      constructor
      · exact_mod_cast hj1
      · have : j ≤ 14 := by omega
        exact_mod_cast this
    split_ifs at hsj
    · rw [List.mem_singleton.mp hsj] at hps
      rw [create_square_plane_yaw0] at hps
      refine plane_mesh_in_rect _ 0.5 0.5 0 0 8 0 8 (by norm_num) (by norm_num)
        ?_ ?_ ?_ ?_ p hps
      · dsimp only
        nlinarith [hiR.1]
      · dsimp only
        nlinarith [hiR.2]
      · dsimp only
        nlinarith [hjR.1]
      · dsimp only
        nlinarith [hjR.2]
    · rw [List.mem_singleton.mp hsj] at hps
      have hlocal : create_block_tilted_top (((i:ℝ) + 0.5) * 0.5, ((j:ℝ) + 0.5) * 0.5)
          0.5 0.5 0 bh 0 no (r (i * 16 + j)).1 (r (i * 16 + j)).2 =
          tilted_block_local (((i:ℝ) + 0.5) * 0.5, ((j:ℝ) + 0.5) * 0.5)
            0.5 0.5 0 bh no (r (i * 16 + j)).1 (r (i * 16 + j)).2 := by
        simp [create_block_tilted_top]
      rw [hlocal] at hps
      refine tilted_block_local_in_rect _ 0.5 0.5 0 bh no _ _ 0 8 0 8
        (by norm_num) (by norm_num) ?_ ?_ ?_ ?_ p hps
      · dsimp only
        nlinarith [hiR.1]
      · dsimp only
        nlinarith [hiR.2]
      · dsimp only
        nlinarith [hjR.1]
      · dsimp only
        nlinarith [hjR.2]
  · rw [List.mem_singleton.mp hborder] at hps
    exact hole_mesh_in_rect _ 8 (8 - 2 * 0.5) 0 0 8 0 8 (by norm_num) (by norm_num)
      (by norm_num) (by norm_num) (by norm_num) (by norm_num) p hps

lemma checkers_bbox (bh no : ℝ) (r : ℕ → ℝ) :
    bbox_xy_eq (generate_checkers_terrain 8 0.5 bh 0.75 no r) 0 8 0 8 := by
  simp only [generate_checkers_terrain]
  rw [grid_N_16]
  refine bbox_from _ 0 8 0 8 ?_ _ _
    (mem_concatAll.mpr ⟨_, List.mem_append_right _ (List.mem_singleton.mpr rfl),
      (hole_mesh_corner_mem ((8:ℝ)/2, (8:ℝ)/2) 8 (8 - 2 * 0.5) 0).1⟩)
    (mem_concatAll.mpr ⟨_, List.mem_append_right _ (List.mem_singleton.mpr rfl),
      (hole_mesh_corner_mem ((8:ℝ)/2, (8:ℝ)/2) 8 (8 - 2 * 0.5) 0).2⟩)
    (by norm_num) (by norm_num) (by norm_num) (by norm_num)
  intro p hp
  rcases mem_concatAll.mp hp with ⟨s, hs, hps⟩
  rcases List.mem_append.mp hs with hcell | hborder
  · obtain ⟨i, hi, hsi⟩ := List.mem_flatMap.mp hcell
    obtain ⟨j, hj, hsj⟩ := List.mem_flatMap.mp hsi
    obtain ⟨hi1, hi2⟩ := List.mem_range'_1.mp hi
    obtain ⟨hj1, hj2⟩ := List.mem_range'_1.mp hj
    have hiR : (1:ℝ) ≤ (i:ℝ) ∧ (i:ℝ) ≤ 14 := by
      constructor
      · exact_mod_cast hi1
      · have : i ≤ 14 := by omega
        exact_mod_cast this
    have hjR : (1:ℝ) ≤ (j:ℝ) ∧ (j:ℝ) ≤ 14 := by
      constructor
      · exact_mod_cast hj1
      · have : j ≤ 14 := by omega
        exact_mod_cast this
    split_ifs at hsj
    · rw [List.mem_singleton.mp hsj] at hps
      rw [create_square_plane_yaw0] at hps
      refine plane_mesh_in_rect _ 0.5 0.5 0 0 8 0 8 (by norm_num) (by norm_num)
        ?_ ?_ ?_ ?_ p hps
      · dsimp only
        nlinarith [hiR.1]
      · dsimp only
        nlinarith [hiR.2]
      · dsimp only
        nlinarith [hjR.1]
      · dsimp only
        nlinarith [hjR.2]
    · rw [List.mem_singleton.mp hsj] at hps
      rw [create_square_block_yaw0] at hps
      have hq2 : ∀ q ∈ ((plane_mesh (((i:ℝ) + 0.5) * 0.5, ((j:ℝ) + 0.5) * 0.5) 0.5 0.5
          (0 + (bh + (2 * r (i * 16 + j) - 1) * no))).verts ++
          (wall_mesh (((i:ℝ) + 0.5) * 0.5, ((j:ℝ) + 0.5) * 0.5) 0.5 0.5 0
            (bh + (2 * r (i * 16 + j) - 1) * no)).verts), in_rect 0 8 0 8 q := by
        intro q hq
        rcases List.mem_append.mp hq with hq1 | hq1
        · refine plane_mesh_in_rect _ 0.5 0.5 _ 0 8 0 8 (by norm_num) (by norm_num)
            ?_ ?_ ?_ ?_ q hq1
          · dsimp only
            nlinarith [hiR.1]
          · dsimp only
            nlinarith [hiR.2]
          · dsimp only
            nlinarith [hjR.1]
          · dsimp only
            nlinarith [hjR.2]
        · refine wall_mesh_in_rect _ 0.5 0.5 _ _ 0 8 0 8 (by norm_num) (by norm_num)
            ?_ ?_ ?_ ?_ q hq1
          · dsimp only
            nlinarith [hiR.1]
          · dsimp only
            nlinarith [hiR.2]
          · dsimp only
            nlinarith [hjR.1]
          · dsimp only
            nlinarith [hjR.2]
      exact hq2 p hps
  · rw [List.mem_singleton.mp hborder] at hps
    exact hole_mesh_in_rect _ 8 (8 - 2 * 0.5) 0 0 8 0 8 (by norm_num) (by norm_num)
      (by norm_num) (by norm_num) (by norm_num) (by norm_num) p hps

/-! #### Perlin terrain bounding box -/

lemma perlin_tr : (pyIntR ((8:ℝ) * 20)).toNat = 160 := by
  unfold pyIntR
  rw [if_neg (by norm_num), show (8:ℝ) * 20 = 160 by norm_num]
  norm_num
  decide

lemma perlin_bbox (d : ℝ) (noiseF : ℝ → ℝ → ℝ) (xs ys : ℝ) :
    bbox_xy_eq (perlin d noiseF xs ys) 0 8 0 8 := by
  simp only [perlin, generate_perlin_terrain]
  rw [perlin_tr]
  refine bbox_from _ 0 8 0 8 ?_ _ _
    (List.mem_flatMap.mpr ⟨0, List.mem_range.mpr (by norm_num),
      List.mem_flatMap.mpr ⟨0, List.mem_range.mpr (by norm_num), List.Mem.head _⟩⟩)
    (List.mem_flatMap.mpr ⟨159, List.mem_range.mpr (by norm_num),
      List.mem_flatMap.mpr ⟨159, List.mem_range.mpr (by norm_num),
        List.Mem.tail _ (List.Mem.tail _ (List.Mem.tail _ (List.Mem.head _)))⟩⟩)
    (by push_cast; norm_num) (by push_cast; norm_num)
    (by push_cast; norm_num) (by push_cast; norm_num)
  intro p hp
  obtain ⟨x, hx, hp2⟩ := List.mem_flatMap.mp hp
  obtain ⟨y, hy, hp4⟩ := List.mem_flatMap.mp hp2
  have hxR : (x:ℝ) ≤ 159 := by
    have : x ≤ 159 := by
      have := List.mem_range.mp hx
      omega
    exact_mod_cast this
  have hyR : (y:ℝ) ≤ 159 := by
    have : y ≤ 159 := by
      have := List.mem_range.mp hy
      omega
    exact_mod_cast this
  have hxR0 : (0:ℝ) ≤ (x:ℝ) := Nat.cast_nonneg x
  have hyR0 : (0:ℝ) ≤ (y:ℝ) := Nat.cast_nonneg y
  simp only [List.mem_cons, List.not_mem_nil, or_false] at hp4
  rcases hp4 with rfl | rfl | rfl | rfl <;>
    exact ⟨by dsimp only; linarith, by dsimp only; linarith,
           by dsimp only; linarith, by dsimp only; linarith⟩

/-! #### Random-blocks terrain bounding box

A block of side lengths `≤ 1` rotated by an arbitrary yaw extends at most
`√((l/2)² + (w/2)²) ≤ √2/2 < 0.71` from its centre along each axis, and every
accepted centre keeps a `0.75` margin from the footprint edge, so all block
vertices stay strictly inside the footprint; the base plane supplies the
bounding-box corners. -/

lemma cauchy_bound (a b cs sn : ℝ) (ha0 : 0 ≤ a) (ha : a ≤ 1/2)
    (hb0 : 0 ≤ b) (hb : b ≤ 1/2) (h : cs^2 + sn^2 = 1) :
    |cs| * a + |sn| * b ≤ 71/100 := by
  nlinarith [sq_nonneg (a*|sn| - b*|cs|), abs_nonneg cs, abs_nonneg sn, sq_abs cs, sq_abs sn,
    sq_nonneg (|cs| - |sn|), sq_nonneg (|cs| + |sn|), mul_nonneg (abs_nonneg cs) (abs_nonneg sn)]

lemma block_verts_center_dist (c : ℝ × ℝ) (l w z1 h bh : ℝ) (hl : 0 ≤ l) (hw : 0 ≤ w) :
    ∀ q ∈ (Surf.concat2 (plane_mesh c l w z1) (wall_mesh c l w h bh)).verts,
      |q.x - c.1| ≤ l / 2 ∧ |q.y - c.2| ≤ w / 2 := by
  intro q hq
  rw [concat2_verts] at hq
  rcases List.mem_append.mp hq with hq1 | hq1 <;>
  · simp only [plane_mesh, wall_mesh, List.mem_cons, List.not_mem_nil, or_false] at hq1
    rcases hq1 with rfl | rfl | rfl | rfl | rfl | rfl | rfl | rfl <;>
      exact ⟨abs_le.mpr ⟨by dsimp only; linarith, by dsimp only; linarith⟩,
             abs_le.mpr ⟨by dsimp only; linarith, by dsimp only; linarith⟩⟩

lemma rotZP_center_dist (yaw px py : ℝ) (q : P3) :
    |(rotZP yaw px py q).x - px| ≤
      |Real.cos yaw| * |q.x - px| + |Real.sin yaw| * |q.y - py| ∧
    |(rotZP yaw px py q).y - py| ≤
      |Real.sin yaw| * |q.x - px| + |Real.cos yaw| * |q.y - py| := by
  constructor
  · have e : (rotZP yaw px py q).x - px =
        Real.cos yaw * (q.x - px) - Real.sin yaw * (q.y - py) := by
      simp only [rotZP]
      ring
    rw [e, sub_eq_add_neg]
    calc |Real.cos yaw * (q.x - px) + -(Real.sin yaw * (q.y - py))|
        ≤ |Real.cos yaw * (q.x - px)| + |-(Real.sin yaw * (q.y - py))| := abs_add _ _
      _ = |Real.cos yaw| * |q.x - px| + |Real.sin yaw| * |q.y - py| := by
          rw [abs_neg, abs_mul, abs_mul]
  · have e : (rotZP yaw px py q).y - py =
        Real.sin yaw * (q.x - px) + Real.cos yaw * (q.y - py) := by
      simp only [rotZP]
      ring
    rw [e]
    calc |Real.sin yaw * (q.x - px) + Real.cos yaw * (q.y - py)|
        ≤ |Real.sin yaw * (q.x - px)| + |Real.cos yaw * (q.y - py)| := abs_add _ _
      _ = |Real.sin yaw| * |q.x - px| + |Real.cos yaw| * |q.y - py| := by
          rw [abs_mul, abs_mul]

lemma create_block_in_rect (c : ℝ × ℝ) (l w h bh yaw : ℝ)
    (hl0 : 0 ≤ l) (hl1 : l ≤ 1) (hw0 : 0 ≤ w) (hw1 : w ≤ 1)
    (hcx1 : 0.75 ≤ c.1) (hcx2 : c.1 ≤ 8 - 0.75)
    (hcy1 : 0.75 ≤ c.2) (hcy2 : c.2 ≤ 8 - 0.75) :
    ∀ p ∈ (create_block c l w h bh yaw).verts, in_rect 0 8 0 8 p := by
  intro p hp
  unfold create_block at hp
  rw [create_plane_yaw0, create_wall_yaw0] at hp
  split_ifs at hp with hyaw
  · have hd := block_verts_center_dist c l w (h + bh) h bh hl0 hw0 p hp
    have hx := abs_le.mp hd.1
    have hy := abs_le.mp hd.2
    exact ⟨by linarith, by linarith, by linarith, by linarith⟩
  · obtain ⟨q, hq, rfl⟩ := List.mem_map.mp hp
    have hd := block_verts_center_dist c l w (h + bh) h bh hl0 hw0 q hq
    have hrot := rotZP_center_dist yaw c.1 c.2 q
    have hsq : Real.cos yaw ^ 2 + Real.sin yaw ^ 2 = 1 := by
      rw [Real.cos_sq_add_sin_sq]
    have bc : |Real.cos yaw| * |q.x - c.1| ≤ |Real.cos yaw| * (l / 2) :=
      mul_le_mul_of_nonneg_left hd.1 (abs_nonneg _)
    have bs2 : |Real.sin yaw| * |q.y - c.2| ≤ |Real.sin yaw| * (w / 2) :=
      mul_le_mul_of_nonneg_left hd.2 (abs_nonneg _)
    have bs3 : |Real.sin yaw| * |q.x - c.1| ≤ |Real.sin yaw| * (l / 2) :=
      mul_le_mul_of_nonneg_left hd.1 (abs_nonneg _)
    have bc4 : |Real.cos yaw| * |q.y - c.2| ≤ |Real.cos yaw| * (w / 2) :=
      mul_le_mul_of_nonneg_left hd.2 (abs_nonneg _)
    have c1 : |Real.cos yaw| * (l / 2) + |Real.sin yaw| * (w / 2) ≤ 71/100 :=
      cauchy_bound (l / 2) (w / 2) _ _ (by linarith) (by linarith) (by linarith) (by linarith) hsq
    have c2 : |Real.sin yaw| * (l / 2) + |Real.cos yaw| * (w / 2) ≤ 71/100 := by
      have := cauchy_bound (l / 2) (w / 2) (Real.sin yaw) (Real.cos yaw)
        (by linarith) (by linarith) (by linarith) (by linarith) (by linarith [hsq])
      linarith
    have hx71 : |(rotZP yaw c.1 c.2 q).x - c.1| ≤ 71/100 := by linarith [hrot.1]
    have hy71 : |(rotZP yaw c.1 c.2 q).y - c.2| ≤ 71/100 := by linarith [hrot.2]
    have hx := abs_le.mp hx71
    have hy := abs_le.mp hy71
    exact ⟨by linarith, by linarith, by linarith, by linarith⟩

lemma random_blocks_bbox (d : ℝ) (u : ℕ → ℝ) (hu : ∀ n, 0 ≤ u n ∧ u n < 1)
    (fuel : ℕ) (m : Surf) (hm : random_blocks d u fuel = some m) :
    bbox_xy_eq m 0 8 0 8 := by
  unfold random_blocks generate_block_terrain at hm
  obtain ⟨bs, hbs, rfl⟩ := Option.map_eq_some'.mp hm
  have hok := block_loop_mem_bounds 8 0.5 1 (0.1 * d) (1 * 0.75 + 0.75 * 0.5) (1 * 0.75) u hu
    (by norm_num) (by norm_num) fuel 0 0 [] bs hbs (by intro b hb; simp at hb)
  refine bbox_from _ 0 8 0 8 ?_ _ _
    (mem_concatAll.mpr ⟨_, List.mem_append_left _ (List.mem_append_left _
      (List.mem_singleton.mpr rfl)),
      by rw [create_square_plane_yaw0]; exact (plane_mesh_corner_mem ((8:ℝ)/2, (8:ℝ)/2) 8 8 0).1⟩)
    (mem_concatAll.mpr ⟨_, List.mem_append_left _ (List.mem_append_left _
      (List.mem_singleton.mpr rfl)),
      by rw [create_square_plane_yaw0]; exact (plane_mesh_corner_mem ((8:ℝ)/2, (8:ℝ)/2) 8 8 0).2⟩)
    (by norm_num) (by norm_num) (by norm_num) (by norm_num)
  intro p hp
  rcases mem_concatAll.mp hp with ⟨s, hs, hps⟩
  rcases List.mem_append.mp hs with hs1 | hs1
  · rcases List.mem_append.mp hs1 with hs2 | hs2
    · rw [List.mem_singleton.mp hs2, create_square_plane_yaw0] at hps
      exact plane_mesh_in_rect _ 8 8 0 0 8 0 8 (by norm_num) (by norm_num)
        (by norm_num) (by norm_num) (by norm_num) (by norm_num) p hps
    · obtain ⟨b, hb, rfl⟩ := List.mem_map.mp hs2
      obtain ⟨hx1, hx2, hy1, hy2, hrej, hl1, hl2, hw1, hw2⟩ := hok b hb
      refine create_block_in_rect (b.x, b.y) b.len b.wid 0 b.bh b.yaw
        (by linarith) hl2 (by linarith) hw2 ?_ ?_ ?_ ?_ p hps
      · dsimp only
        linarith
      · dsimp only
        linarith
      · dsimp only
        linarith
      · dsimp only
        linarith
  · rw [if_pos rfl] at hs1
    rw [List.mem_singleton.mp hs1, create_square_block_yaw0] at hps
    have hd := block_verts_center_dist ((8:ℝ)/2, (8:ℝ)/2) 0.75 0.75 (0 + 0.5 * (0.1 * d)) 0
      (0.5 * (0.1 * d)) (by norm_num) (by norm_num) p hps
    have hx := abs_le.mp hd.1
    have hy := abs_le.mp hd.2
    have hc1 : ((8:ℝ)/2, (8:ℝ)/2).1 = 4 := by norm_num
    have hc2 : ((8:ℝ)/2, (8:ℝ)/2).2 = 4 := by norm_num
    rw [hc1] at hx
    rw [hc2] at hy
    exact ⟨by linarith, by linarith, by linarith, by linarith⟩

/-! #### Slope terrain bounding box

The barred sides are built at `center (4,4)`, `outer 6`, `inner 1`; before the
yaw placement their X correction maps every vertex back into the strip
`[4.5, 7] × [1, 7]`, and the four yaw placements (`0, π/2, π, 3π/2`) map the
square `[0,8]²` onto itself; the outer step top attains the footprint corners. -/

lemma rotZP_zero_in_sq (q : P3) (h : in_rect 0 8 0 8 q) :
    in_rect 0 8 0 8 (rotZP 0 4 4 q) := by
  obtain ⟨h1, h2, h3, h4⟩ := h
  unfold rotZP in_rect
  rw [Real.cos_zero, Real.sin_zero]
  dsimp only
  refine ⟨by linarith, by linarith, by linarith, by linarith⟩

lemma rotZP_half_pi_in_sq (q : P3) (h : in_rect 0 8 0 8 q) :
    in_rect 0 8 0 8 (rotZP (Real.pi / 2) 4 4 q) := by
  obtain ⟨h1, h2, h3, h4⟩ := h
  unfold rotZP in_rect
  rw [Real.cos_pi_div_two, Real.sin_pi_div_two]
  dsimp only
  refine ⟨by linarith, by linarith, by linarith, by linarith⟩

lemma rotZP_pi_in_sq (q : P3) (h : in_rect 0 8 0 8 q) :
    in_rect 0 8 0 8 (rotZP Real.pi 4 4 q) := by
  obtain ⟨h1, h2, h3, h4⟩ := h
  unfold rotZP in_rect
  rw [Real.cos_pi, Real.sin_pi]
  dsimp only
  refine ⟨by linarith, by linarith, by linarith, by linarith⟩

lemma cos_three_pi_div_two : Real.cos (3 * Real.pi / 2) = 0 := by
  rw [show (3 * Real.pi / 2 : ℝ) = Real.pi + Real.pi / 2 by ring, Real.cos_add,
    Real.cos_pi, Real.sin_pi, Real.cos_pi_div_two, Real.sin_pi_div_two]
  ring

lemma sin_three_pi_div_two : Real.sin (3 * Real.pi / 2) = -1 := by
  rw [show (3 * Real.pi / 2 : ℝ) = Real.pi + Real.pi / 2 by ring, Real.sin_add,
    Real.cos_pi, Real.sin_pi, Real.cos_pi_div_two, Real.sin_pi_div_two]
  ring

lemma rotZP_three_half_pi_in_sq (q : P3) (h : in_rect 0 8 0 8 q) :
    in_rect 0 8 0 8 (rotZP (3 * Real.pi / 2) 4 4 q) := by
  obtain ⟨h1, h2, h3, h4⟩ := h
  unfold rotZP in_rect
  rw [cos_three_pi_div_two, sin_three_pi_div_two]
  dsimp only
  refine ⟨by linarith, by linarith, by linarith, by linarith⟩

lemma sin_arctan_eq_mul_cos (x : ℝ) :
    Real.sin (Real.arctan x) = x * Real.cos (Real.arctan x) := by
  have hc : Real.cos (Real.arctan x) ≠ 0 := ne_of_gt (Real.cos_arctan_pos x)
  have ht := Real.tan_arctan x
  rw [Real.tan_eq_sin_div_cos] at ht
  field_simp at ht
  linarith [ht]

lemma corrected_x_formula (h : ℝ) (q : P3) :
    (xcorrect (4, 4) 1 ((6 / 2 - 1 / 2) / slope_maxx (4, 4) 6 1 h)
      (shiftZ h (rotYP (barred_rot 6 1 h) (4 + 1 / 2) q))).x
    = 4 + 1 / 2 + (q.x - (4 + 1 / 2)) + q.z * (h / (5 / 2)) := by
  unfold xcorrect shiftZ rotYP
  dsimp only
  rw [slope_maxx_eval, barred_rot_eval, sin_arctan_eq_mul_cos]
  set cv := Real.cos (Real.arctan (h / (5 / 2))) with hcv
  have hc : cv ≠ 0 := ne_of_gt (Real.cos_arctan_pos _)
  field_simp
  ring

lemma bar_vert_facts (d al : ℝ) (hd0 : 0 ≤ d) (ha1 : 1 / 4 ≤ al) (ha2 : al ≤ 3 / 4) :
    ∀ q ∈ (create_bar (4, 4) al 6 1 (0.08 * d) 0.2).verts,
      (1 / 2 + al * (6 / 2 - 1 / 2) - 0.2 / 2 ≤ q.x - 4 ∧
       q.x - 4 ≤ 1 / 2 + al * (6 / 2 - 1 / 2) + 0.2 / 2) ∧
      (0 ≤ q.z ∧ q.z ≤ 0.08 * d) ∧ (1 ≤ q.y ∧ q.y ≤ 7) := by
  intro q hq
  simp only [create_bar, List.mem_cons, List.not_mem_nil, or_false] at hq
  rcases hq with rfl | rfl | rfl | rfl | rfl | rfl | rfl | rfl <;>
    exact ⟨⟨by dsimp only; linarith, by dsimp only; linarith⟩,
           ⟨by dsimp only; linarith, by dsimp only; linarith⟩,
           ⟨by dsimp only; linarith, by dsimp only; linarith⟩⟩

lemma barred_merged_strip (d : ℝ) (hd0 : 0 < d) (hd1 : d ≤ 1) :
    ∀ p ∈ (Surf.concat2 (barred_slope_rotated (4, 4) 6 1 (-(0.5 * d)))
        (barred_bars_rotated (4, 4) 6 1 (-(0.5 * d)) (0.08 * d) 0.2)).verts,
      (4 + 1 / 2 ≤ (xcorrect (4, 4) 1
          ((6 / 2 - 1 / 2) / slope_maxx (4, 4) 6 1 (-(0.5 * d))) p).x ∧
        (xcorrect (4, 4) 1
          ((6 / 2 - 1 / 2) / slope_maxx (4, 4) 6 1 (-(0.5 * d))) p).x ≤ 7) ∧
      (1 ≤ p.y ∧ p.y ≤ 7) := by
  intro p hp
  rw [concat2_verts] at hp
  rcases List.mem_append.mp hp with hp1 | hp1
  · unfold barred_slope_rotated at hp1
    dsimp only [Surf.mapPts] at hp1
    obtain ⟨q, hq, rfl⟩ := List.mem_map.mp hp1
    rw [corrected_x_formula]
    have hy : (shiftZ (-(0.5 * d))
        (rotYP (barred_rot 6 1 (-(0.5 * d))) (4 + 1 / 2) q)).y = q.y := rfl
    simp only [List.mem_cons, List.not_mem_nil, or_false] at hq
    rcases hq with rfl | rfl | rfl | rfl <;>
      exact ⟨⟨by dsimp only; linarith, by dsimp only; linarith⟩,
             ⟨by rw [hy]; dsimp only; linarith, by rw [hy]; dsimp only; linarith⟩⟩
  · unfold barred_bars_rotated at hp1
    dsimp only [Surf.mapPts] at hp1
    obtain ⟨q, hq, rfl⟩ := List.mem_map.mp hp1
    rw [corrected_x_formula]
    have hy : (shiftZ (-(0.5 * d))
        (rotYP (barred_rot 6 1 (-(0.5 * d))) (4 + 1 / 2) q)).y = q.y := rfl
    have hqf : (1 / 2 + (1/4 : ℝ) * (6 / 2 - 1 / 2) - 0.2 / 2 ≤ q.x - 4 ∧
          q.x - 4 ≤ 1 / 2 + (3/4 : ℝ) * (6 / 2 - 1 / 2) + 0.2 / 2) ∧
        (0 ≤ q.z ∧ q.z ≤ 0.08 * d) ∧ (1 ≤ q.y ∧ q.y ≤ 7) := by
      rcases mem_concatAll.mp hq with ⟨s, hs, hqs⟩
      simp only [List.mem_cons, List.not_mem_nil, or_false] at hs
      rcases hs with rfl | rfl | rfl
      · obtain ⟨hx, hz, hyy⟩ := bar_vert_facts d 0.25 (le_of_lt hd0) (by norm_num)
          (by norm_num) q hqs
        exact ⟨⟨by linarith [hx.1], by linarith [hx.2]⟩, hz, hyy⟩
      · obtain ⟨hx, hz, hyy⟩ := bar_vert_facts d 0.5 (le_of_lt hd0) (by norm_num)
          (by norm_num) q hqs
        exact ⟨⟨by linarith [hx.1], by linarith [hx.2]⟩, hz, hyy⟩
      · obtain ⟨hx, hz, hyy⟩ := bar_vert_facts d 0.75 (le_of_lt hd0) (by norm_num)
          (by norm_num) q hqs
        exact ⟨⟨by linarith [hx.1], by linarith [hx.2]⟩, hz, hyy⟩
    obtain ⟨⟨hx1, hx2⟩, ⟨hz1, hz2⟩, hy1, hy2⟩ := hqf
    refine ⟨⟨?_, ?_⟩, by rw [hy]; exact hy1, by rw [hy]; exact hy2⟩
    · have hzb : q.z * (-(0.5 * d) / (5 / 2)) ≥ -(0.016 : ℝ) := by
        nlinarith [hz1, hz2, hd0, hd1]
      linarith
    · have hzb : q.z * (-(0.5 * d) / (5 / 2)) ≤ 0 := by
        have : (0:ℝ) ≤ q.z := hz1
        nlinarith [hd0]
      linarith

lemma smooth_side_in_rect (yaw h : ℝ)
    (hpres : ∀ q : P3, in_rect 0 8 0 8 q → in_rect 0 8 0 8 (rotZP yaw 4 4 q)) :
    ∀ p ∈ (generate_smooth_slope_side (4, 4) yaw 6 1 h).verts, in_rect 0 8 0 8 p := by
  intro p hp
  unfold generate_smooth_slope_side at hp
  dsimp only [Surf.mapPts] at hp
  obtain ⟨q, hq, rfl⟩ := List.mem_map.mp hp
  apply hpres
  simp only [List.mem_cons, List.not_mem_nil, or_false] at hq
  rcases hq with rfl | rfl | rfl | rfl <;>
    exact ⟨by dsimp only; norm_num, by dsimp only; norm_num,
           by dsimp only; norm_num, by dsimp only; norm_num⟩

lemma zcorrect_xy (h cf : ℝ) (p : P3) :
    (zcorrect h cf p).x = p.x ∧ (zcorrect h cf p).y = p.y := ⟨rfl, rfl⟩

lemma xcorrect_y (c : ℝ × ℝ) (inner cf : ℝ) (p : P3) : (xcorrect c inner cf p).y = p.y := rfl

lemma barred_side_in_rect (d yaw : ℝ) (hd0 : 0 < d) (hd1 : d ≤ 1)
    (hpres : ∀ q : P3, in_rect 0 8 0 8 q → in_rect 0 8 0 8 (rotZP yaw 4 4 q)) :
    ∀ p ∈ (generate_barred_slope_side (4, 4) yaw 6 1 (-(0.5 * d)) (0.08 * d) 0.2).verts,
      in_rect 0 8 0 8 p := by
  intro p hp
  unfold generate_barred_slope_side at hp
  dsimp only [Surf.mapPts] at hp
  obtain ⟨q2, hq2, rfl⟩ := List.mem_map.mp hp
  obtain ⟨q1, hq1, rfl⟩ := List.mem_map.mp hq2
  obtain ⟨q0, hq0, rfl⟩ := List.mem_map.mp hq1
  apply hpres
  have hstrip := barred_merged_strip d hd0 hd1 q0 hq0
  have hzx := (zcorrect_xy (-(0.5 * d))
    (-(-(0.5 * d)) / slope_minmaxz (4, 4) 6 1 (-(0.5 * d)))
    (xcorrect (4, 4) 1 ((6 / 2 - 1 / 2) / slope_maxx (4, 4) 6 1 (-(0.5 * d))) q0))
  have hxy := xcorrect_y (4, 4) 1 ((6 / 2 - 1 / 2) / slope_maxx (4, 4) 6 1 (-(0.5 * d))) q0
  refine ⟨?_, ?_, ?_, ?_⟩
  · rw [hzx.1]
    linarith [hstrip.1.1]
  · rw [hzx.1]
    linarith [hstrip.1.2]
  · rw [hzx.2, hxy]
    linarith [hstrip.2.1]
  · rw [hzx.2, hxy]
    linarith [hstrip.2.2]

lemma slope_bbox (d : ℝ) (h0 : 0 ≤ d) (h1 : d ≤ 1) :
    bbox_xy_eq (slope_upwards d) 0 8 0 8 := by
  simp only [slope_upwards, generate_slope_terrain, eq_self_iff_true, if_true]
  by_cases hz : (0.5 * d : ℝ) = 0
  · rw [if_pos hz, create_square_plane_yaw0]
    refine bbox_from _ 0 8 0 8 ?_ _ _
      (plane_mesh_corner_mem ((8:ℝ)/2, (8:ℝ)/2) 8 8 0).1
      (plane_mesh_corner_mem ((8:ℝ)/2, (8:ℝ)/2) 8 8 0).2
      (by norm_num) (by norm_num) (by norm_num) (by norm_num)
    exact plane_mesh_in_rect _ 8 8 0 0 8 0 8 (by norm_num) (by norm_num)
      (by norm_num) (by norm_num) (by norm_num) (by norm_num)
  · rw [if_neg hz]
    rw [show ((8:ℝ)/2, (8:ℝ)/2) = ((4:ℝ), (4:ℝ)) by norm_num,
        show (8:ℝ) - 2 = 6 by norm_num,
        show (-(1:ℝ)) * (0.5 * d) = -(0.5 * d) by ring]
    have hdpos : 0 < d := by
      rcases lt_or_eq_of_le h0 with hlt | heq
      · exact hlt
      · exact absurd (by rw [← heq]; ring) hz
    refine bbox_from _ 0 8 0 8 ?_ _ _
      (mem_concatAll.mpr ⟨_, List.mem_cons_of_mem _ (List.mem_cons_of_mem _
        (List.mem_cons_of_mem _ (List.mem_cons_of_mem _ (List.mem_cons_of_mem _
          (List.mem_cons_self _ _))))),
        (hole_mesh_corner_mem ((4:ℝ), (4:ℝ)) 8 6 0).1⟩)
      (mem_concatAll.mpr ⟨_, List.mem_cons_of_mem _ (List.mem_cons_of_mem _
        (List.mem_cons_of_mem _ (List.mem_cons_of_mem _ (List.mem_cons_of_mem _
          (List.mem_cons_self _ _))))),
        (hole_mesh_corner_mem ((4:ℝ), (4:ℝ)) 8 6 0).2⟩)
      (by norm_num) (by norm_num) (by norm_num) (by norm_num)
    intro p hp
    rcases mem_concatAll.mp hp with ⟨s, hs, hps⟩
    simp only [List.mem_cons, List.not_mem_nil, or_false] at hs
    rcases hs with rfl | rfl | rfl | rfl | rfl | rfl
    · rw [create_square_plane_yaw0] at hps
      exact plane_mesh_in_rect _ 1 1 _ 0 8 0 8 (by norm_num) (by norm_num)
        (by norm_num) (by norm_num) (by norm_num) (by norm_num) p hps
    · exact smooth_side_in_rect 0 _ rotZP_zero_in_sq p hps
    · exact barred_side_in_rect d (Real.pi / 2) hdpos h1 rotZP_half_pi_in_sq p hps
    · exact smooth_side_in_rect Real.pi _ rotZP_pi_in_sq p hps
    · exact barred_side_in_rect d (3 * Real.pi / 2) hdpos h1 rotZP_three_half_pi_in_sq p hps
    · exact hole_mesh_in_rect _ 8 6 0 0 8 0 8 (by norm_num) (by norm_num)
        (by norm_num) (by norm_num) (by norm_num) (by norm_num) p hps

/-- Claim C1: every terrain generator of the registry (flat, stairs up, stairs
down, slope, random blocks, perlin, checkers, tilted squares, square centric),
at every difficulty in `[0, 1]` and for every random stream / noise function,
produces a surface whose XY bounding box equals exactly
`[0, terrainSize] × [0, terrainSize] = [0, 8]²` (so in particular within any
tolerance), the footprint centred at `(4, 4)`.  The checkers generator is
modelled from the spec (its source file is absent); for random blocks the loop
draws lie in `[0, 1)` and the statement covers every successful run. -/
theorem footprint_invariant (d : ℝ) (hd0 : 0 ≤ d) (hd1 : d ≤ 1) :
    bbox_xy_eq (flat d) 0 8 0 8 ∧
    bbox_xy_eq (stairs_upwards d) 0 8 0 8 ∧
    bbox_xy_eq (stairs_downwards d) 0 8 0 8 ∧
    bbox_xy_eq (slope_upwards d) 0 8 0 8 ∧
    (∀ u : ℕ → ℝ, (∀ n, 0 ≤ u n ∧ u n < 1) → ∀ (fuel : ℕ) (m : Surf),
      random_blocks d u fuel = some m → bbox_xy_eq m 0 8 0 8) ∧
    (∀ (noiseF : ℝ → ℝ → ℝ) (xs ys : ℝ), bbox_xy_eq (perlin d noiseF xs ys) 0 8 0 8) ∧
    (∀ r : ℕ → ℝ, bbox_xy_eq (checkers d r) 0 8 0 8) ∧
    (∀ r : ℕ → ℝ × ℝ, bbox_xy_eq (tilted_squares d r) 0 8 0 8) ∧
    bbox_xy_eq (square_centric d) 0 8 0 8 :=
  ⟨flat_bbox d, stairs_bbox (0.08 * d) true, stairs_bbox (0.08 * d) false,
   slope_bbox d hd0 hd1,
   fun u hu fuel m hm => random_blocks_bbox d u hu fuel m hm,
   fun noiseF xs ys => perlin_bbox d noiseF xs ys,
   fun r => checkers_bbox (0.09 * d) 0.02 r,
   fun r => tilted_squares_bbox (0.08 * d) (0.04 * d) r,
   square_centric_bbox d⟩

/-- Witness for C1: difficulty `1`. -/
theorem footprint_invariant_witness :
    ((0:ℝ) ≤ 1 ∧ (1:ℝ) ≤ 1) ∧
    (bbox_xy_eq (flat 1) 0 8 0 8 ∧
     bbox_xy_eq (stairs_upwards 1) 0 8 0 8 ∧
     bbox_xy_eq (stairs_downwards 1) 0 8 0 8 ∧
     bbox_xy_eq (slope_upwards 1) 0 8 0 8 ∧
     (∀ u : ℕ → ℝ, (∀ n, 0 ≤ u n ∧ u n < 1) → ∀ (fuel : ℕ) (m : Surf),
       random_blocks 1 u fuel = some m → bbox_xy_eq m 0 8 0 8) ∧
     (∀ (noiseF : ℝ → ℝ → ℝ) (xs ys : ℝ), bbox_xy_eq (perlin 1 noiseF xs ys) 0 8 0 8) ∧
     (∀ r : ℕ → ℝ, bbox_xy_eq (checkers 1 r) 0 8 0 8) ∧
     (∀ r : ℕ → ℝ × ℝ, bbox_xy_eq (tilted_squares 1 r) 0 8 0 8) ∧
     bbox_xy_eq (square_centric 1) 0 8 0 8) :=
  ⟨⟨by norm_num, le_refl 1⟩, footprint_invariant 1 (by norm_num) (le_refl 1)⟩

/-! ### Zero enabled generators (claim C6) -/

/-- Claim C6 (code bug): with every weight `≤ 0` the script's guard only prints
the diagnostic and continues; the run then aborts at the normalisation line
`tgens_csum[-1]` with an `IndexError` (modelled `none`) — an index error, not a
configuration error, although it does happen before any cell generation. -/
theorem zero_weights_prologue_behaviour :
    enabled_gens zero_weights = [] ∧
    config_messages zero_weights = ["At least one terrain type must be enabled."] ∧
    tgens_csum zero_weights = [] ∧
    normalized_csum zero_weights = none := by
  refine ⟨by decide, ?_, by decide, by decide⟩
  unfold config_messages
  rw [if_pos (by decide)]

end TerrainGen
